import Mathlib

/-!
Verification development for the `dalgo_chat_dashboard` repository.

The Python sources are shallowly embedded over `List Char`: each embedded
definition mirrors one Python function (file and line references are given in
the doc comments).  Python regular-expression searches are embedded as
hand-written scanners that reproduce the semantics of the concrete patterns
appearing in the source (leftmost match, greedy/lazy quantifiers, word
boundaries, `re.IGNORECASE`, `re.findall` non-overlapping scanning), restricted
to ASCII text as used throughout the repository.
-/

namespace Dalgo

/-- Strings are modelled as lists of characters (`str s` injects a literal). -/
abbrev Chars := List Char

/-- Convert a Lean string literal to the character-list representation. -/
def str (s : String) : Chars := s.data

/-- ASCII whitespace, matching Python `str.strip` / regex `\s` for the ASCII
range: space, tab, newline, carriage return, form feed, vertical tab. -/
def isWs (c : Char) : Bool :=
  c = ' ' || c = '\t' || c = '\n' || c = '\r' || c = Char.ofNat 12 || c = Char.ofNat 11

/-- Word character, Python regex `\w` restricted to ASCII. -/
def isWordChar (c : Char) : Bool :=
  (('a' ≤ c && c ≤ 'z') || ('A' ≤ c && c ≤ 'Z') || ('0' ≤ c && c ≤ '9') || c = '_')

/-- ASCII digit, Python regex `\d`. -/
def isDigit (c : Char) : Bool := '0' ≤ c && c ≤ '9'

/-- ASCII upper-casing of one character, as in Python `str.upper`. -/
def upC (c : Char) : Char :=
  if 'a' ≤ c && c ≤ 'z' then Char.ofNat (c.toNat - 32) else c

/-- ASCII lower-casing of one character, as in Python `str.lower`. -/
def loC (c : Char) : Char :=
  if 'A' ≤ c && c ≤ 'Z' then Char.ofNat (c.toNat + 32) else c

/-- Python `str.upper` (ASCII). -/
def pyUpper (s : Chars) : Chars := s.map upC

/-- Python `str.lower` (ASCII). -/
def pyLower (s : Chars) : Chars := s.map loC

/-- Python `str.lstrip()`. -/
def pyLstrip (s : Chars) : Chars := s.dropWhile isWs

/-- Python `str.rstrip()`. -/
def pyRstrip (s : Chars) : Chars := (s.reverse.dropWhile isWs).reverse

/-- Python `str.strip()`. -/
def pyStrip (s : Chars) : Chars := pyLstrip (pyRstrip s)

/-- Python `str.rstrip(';')`: remove all trailing semicolons. -/
def rstripSemi (s : Chars) : Chars := (s.reverse.dropWhile (· = ';')).reverse

/-- Substring test, Python `pat in s`. -/
def containsSub (pat : Chars) : Chars → Bool
  | [] => pat.isPrefixOf []
  | c :: rest => pat.isPrefixOf (c :: rest) || containsSub pat rest

/-- Number of positions of `s` at which `pat` occurs (counts overlapping
occurrences; used to state "contains exactly one LIMIT"). -/
def occCount (pat : Chars) : Chars → Nat
  | [] => if pat.isPrefixOf ([] : Chars) then 1 else 0
  | c :: rest => (if pat.isPrefixOf (c :: rest) then 1 else 0) + occCount pat rest

/-- Case-insensitive literal match of `pat` against a prefix of `s`
(both compared through ASCII lower-casing), returning the remainder. -/
def ciPrefixDrop : Chars → Chars → Option Chars
  | [], s => some s
  | _ :: _, [] => none
  | p :: ps, c :: cs => if loC c = loC p then ciPrefixDrop ps cs else none

/-- Presence of a closing `*/` in the text (used to decide whether an opening
`/*` has a match). -/
def hasClose (l : Chars) : Bool := containsSub (str "*/") l

/-- Scanner modes for block-comment removal: outside a comment, outside with a
pending slash just read, inside a comment, inside having just read a star. -/
inductive BMode where
  | out
  | outSlash
  | ins
  | insStar
deriving Repr, DecidableEq

/-- Scanner of `re.sub(r'/\*.*?\*/', '', sql, flags=re.DOTALL)`
(sql_guard.py:34), one character per step: an opening `/*` with a later `*/`
switches to drop mode, which removes everything up to and including the first
closing `*/`; an unmatched `/*` is kept verbatim (the regex finds no match
there), scanning resuming after its slash. -/
def blockGo : BMode → Chars → Chars
  | .out, [] => []
  | .outSlash, [] => ['/']
  | .ins, [] => []
  | .insStar, [] => []
  | .out, c :: rest => if c = '/' then blockGo .outSlash rest else c :: blockGo .out rest
  | .outSlash, c :: rest =>
    if c = '/' then '/' :: blockGo .outSlash rest
    else if c = '*' then
      if hasClose rest then blockGo .ins rest else '/' :: '*' :: blockGo .out rest
    else '/' :: c :: blockGo .out rest
  | .ins, c :: rest => if c = '*' then blockGo .insStar rest else blockGo .ins rest
  | .insStar, c :: rest =>
    if c = '/' then blockGo .out rest
    else if c = '*' then blockGo .insStar rest
    else blockGo .ins rest

/-- Leftmost-minimal non-overlapping removal of `/* ... */` blocks. -/
def blockStrip (l : Chars) : Chars := blockGo .out l

/-- Scanner modes for line-comment removal: outside, one dash pending, inside
a `--` comment. -/
inductive LMode where
  | out
  | dash
  | com
deriving Repr, DecidableEq

/-- Scanner of `re.sub(r'--.*', '', s)` (sql_guard.py:35), one character per
step: from each `--`, drop up to (but not including) the end of the line. -/
def lineGo : LMode → Chars → Chars
  | .out, [] => []
  | .dash, [] => ['-']
  | .com, [] => []
  | .out, c :: rest => if c = '-' then lineGo .dash rest else c :: lineGo .out rest
  | .dash, c :: rest =>
    if c = '-' then lineGo .com rest else '-' :: c :: lineGo .out rest
  | .com, c :: rest => if c = '\n' then '\n' :: lineGo .out rest else lineGo .com rest

/-- Removal of `--` line comments. -/
def lineStrip (l : Chars) : Chars := lineGo .out l

/-- Comment removal exactly as in `SqlGuard.validate_sql` (sql_guard.py:33-35):
block comments first, then line comments. -/
def stripComments (s : Chars) : Chars := lineStrip (blockStrip s)

/-- Embedding of `SqlGuard.sanitize_sql` (sql_guard.py:95-110): right-strip,
drop one trailing semicolon, keep only the first `;`-separated statement,
then strip. -/
def sanitizeSql (sql : Chars) : Chars :=
  let s1 := pyRstrip sql
  let s2 := if s1.getLast? = some ';' then s1.dropLast else s1
  let s3 := if ';' ∈ s2 then s2.takeWhile (· ≠ ';') else s2
  pyStrip s3

/-! Regex scanners used by `SqlGuard.validate_sql`.  Each scanner walks the
text position by position (Python `re.search` leftmost semantics), carrying the
previous character for `\b` word-boundary tests. -/

/-- Scan `s` for a position with a word boundary before it at which `test`
succeeds on the remaining text (`prev` is the character before the current
position, `none` at the start of the string). -/
def scanBnd (test : Chars → Bool) : Option Char → Chars → Bool
  | _, [] => false
  | prev, c :: rest =>
    (prev.all (fun p => !isWordChar p) && test (c :: rest)) || scanBnd test (some c) rest

/-- Match of the literal word `w` (which starts and ends with word characters)
at the head of `l`, requiring a word boundary after it. -/
def wordAt (w : Chars) (l : Chars) : Bool :=
  w.isPrefixOf l && (l.drop w.length).head?.all (fun d => !isWordChar d)

/-- Python `re.search(rf'\b{w}\b', s)` as a Boolean, for a pattern `w` that
starts and ends with word characters.  Case-sensitive; callers pass
upper-cased text and pattern to model `re.IGNORECASE`. -/
def containsWord (w s : Chars) : Bool := scanBnd (wordAt w) none s

/-- Decimal value of a digit run. -/
def digitsVal (ds : Chars) : Nat := ds.foldl (fun n c => n * 10 + (c.toNat - 48)) 0

/-- Decimal digits of a natural number. -/
def natChars (n : Nat) : Chars := str (toString n)

/-- Attempt of the pattern `LIMIT\s+(\d+)` at the head of `s` (applied by the
guard to upper-cased text), returning the captured value. -/
def limitTryAt (s : Chars) : Option Nat :=
  if (str "LIMIT").isPrefixOf s then
    let t := s.drop 5
    let ws := t.takeWhile isWs
    let ds := (t.dropWhile isWs).takeWhile isDigit
    if ws ≠ [] && ds ≠ [] then some (digitsVal ds) else none
  else none

/-- Python `re.search(r'LIMIT\s+(\d+)', s)` (sql_guard.py:60): value captured
by the first full match, scanning left to right. -/
def limitSearch : Chars → Option Nat
  | [] => none
  | c :: rest =>
    match limitTryAt (c :: rest) with
    | some v => some v
    | none => limitSearch rest

/-- Match of `SELECT\s+\*` at the head of `l` (applied to upper-cased text). -/
def selectStarAt (l : Chars) : Bool :=
  (str "SELECT").isPrefixOf l &&
    (let t := l.drop 6
     t.takeWhile isWs ≠ [] && (t.dropWhile isWs).head? = some '*')

/-- Python `re.search(r'SELECT\s+\*', sql_trimmed)` (sql_guard.py:77). -/
def selectStarSearch : Chars → Bool
  | [] => false
  | c :: rest => selectStarAt (c :: rest) || selectStarSearch rest

/-- Match of one alternative `p_` of the non-production schema pattern
followed by at least one word character. -/
def wordAfterPrefOk (p : Chars) (l : Chars) : Bool :=
  p.isPrefixOf l && (l.drop p.length).head?.any isWordChar

/-- Python `re.search(r'\b(?:staging_|intermediate_|raw_)\w+', sql, re.IGNORECASE)`
(sql_guard.py:67-68), applied to the upper-cased text. -/
def schemaWarnMatch (sUp : Chars) : Bool :=
  scanBnd (fun l =>
    wordAfterPrefOk (str "STAGING_") l || wordAfterPrefOk (str "INTERMEDIATE_") l ||
      wordAfterPrefOk (str "RAW_") l) none sUp

/-- Match of `dev_\w+\.` at the head of `l` (upper-cased text). -/
def devAt (l : Chars) : Bool :=
  (str "DEV_").isPrefixOf l &&
    (let t := l.drop 4
     t.takeWhile isWordChar ≠ [] && (t.dropWhile isWordChar).head? = some '.')

/-- Python `re.search(r'\bdev_\w+\.', sql, re.IGNORECASE)` (sql_guard.py:81). -/
def devSchemaMatch (sUp : Chars) : Bool := scanBnd devAt none sUp

/-- Python `re.search(r'\bairbyte_internal\.', sql, re.IGNORECASE)`. -/
def airbyteMatch (sUp : Chars) : Bool :=
  scanBnd (fun l => (str "AIRBYTE_INTERNAL.").isPrefixOf l) none sUp

/-- Python `re.search(r'\becochamps25_26\.', sql, re.IGNORECASE)`. -/
def ecoMatch (sUp : Chars) : Bool :=
  scanBnd (fun l => (str "ECOCHAMPS25_26.").isPrefixOf l) none sUp

/-- Relevant fields of `Config` (config.py:32-33) with their `from_env`
defaults: `DEFAULT_LIMIT=500`, `MAX_LIMIT=2000`. -/
structure Config where
  default_limit : Nat
  max_limit : Nat
deriving Repr, DecidableEq

/-- The module-level `config = Config.from_env()` instance (config.py:88). -/
def config : Config := ⟨500, 2000⟩

/-- Forbidden keywords of `SqlGuard.__init__` (sql_guard.py:12-18), listed in
source order.  The Python value is a `set`, whose iteration order is
unspecified, so only membership and emptiness of the derived error list are
meaningful. -/
def forbiddenKeywords : List Chars :=
  [str "INSERT", str "UPDATE", str "DELETE", str "DROP", str "ALTER", str "CREATE",
   str "TRUNCATE", str "GRANT", str "REVOKE", str "COPY", str "CALL", str "EXECUTE",
   str "EXEC", str "PROCEDURE", str "FUNCTION", str "TRIGGER", str "INDEX", str "VIEW",
   str "SEQUENCE", str "SCHEMA", str "DATABASE", str "TABLE", str "COLUMN",
   str "CONSTRAINT", str "FOREIGN", str "PRIMARY", str "UNIQUE", str "CHECK",
   str "DEFAULT", str "SET", str "COMMIT", str "ROLLBACK", str "SAVEPOINT"]

/-- Result model `SqlValidationResult` (models.py:49-53). -/
structure SqlValidationResult where
  is_valid : Bool
  corrected_sql : Option Chars
  errors : List Chars
  warnings : List Chars
deriving Repr, DecidableEq

/-- Check 1 of `validate_sql` (sql_guard.py:38-40). -/
def selectStartErrors (sqlTrimmed : Chars) : List Chars :=
  if (str "SELECT").isPrefixOf sqlTrimmed then [] else [str "Query must start with SELECT"]

/-- Check 2 of `validate_sql` (sql_guard.py:43-46): one error per forbidden
keyword found as a whole word in the comment-stripped upper-cased text. -/
def keywordErrors (sqlTrimmed : Chars) : List Chars :=
  (forbiddenKeywords.filter (fun k => containsWord k sqlTrimmed)).map
    (fun k => str "Forbidden keyword detected: " ++ k)

/-- Check 3 of `validate_sql` (sql_guard.py:49-50): a semicolon that survives
stripping all trailing semicolons marks multiple statements. -/
def multiStmtErrors (noComments : Chars) : List Chars :=
  if ';' ∈ rstripSemi noComments then [str "Multiple statements not allowed"] else []

/-- Check 6 of `validate_sql` (sql_guard.py:71-74): PII warning for each of the
three alternation patterns whose alternatives occur as whole words. -/
def piiWarnings (sql : Chars) : List Chars :=
  let u := pyUpper sql
  (if [str "NAME", str "PHONE", str "EMAIL", str "ADDRESS", str "NATIONAL_ID",
       str "ID_NUMBER"].any (fun w => containsWord w u) then
    [str "Query may access PII columns matching pattern: \\b(name|phone|email|address|national_id|id_number)\\b"]
   else []) ++
  (if [str "CONTACT", str "MOBILE", str "TELEPHONE", str "PERSONAL",
       str "IDENTIFICATION"].any (fun w => containsWord w u) then
    [str "Query may access PII columns matching pattern: \\b(contact|mobile|telephone|personal|identification)\\b"]
   else []) ++
  (if [str "FIRSTNAME", str "LASTNAME", str "FULL_NAME", str "PARTICIPANT_NAME",
       str "SURVIVOR_NAME"].any (fun w => containsWord w u) then
    [str "Query may access PII columns matching pattern: \\b(firstname|lastname|full_name|participant_name|survivor_name)\\b"]
   else [])

/-- Check 8 of `validate_sql` (sql_guard.py:80-84): one (identical) error per
deny-listed schema pattern that matches the raw text. -/
def forbiddenSchemaErrors (sql : Chars) : List Chars :=
  let u := pyUpper sql
  let msg := str "Forbidden schema detected. Only use: prod, staging, intermediate"
  (if devSchemaMatch u then [msg] else []) ++
    (if airbyteMatch u then [msg] else []) ++ (if ecoMatch u then [msg] else [])

/-- The text `sanitize_sql(sql_no_comments)` of check 4 (sql_guard.py:53). -/
def sanStripped (sql : Chars) : Chars := sanitizeSql (stripComments sql)

/-- Condition `'LIMIT' not in sanitized_upper` of check 4 (sql_guard.py:55). -/
def noLimitFlag (sql : Chars) : Bool :=
  !containsSub (str "LIMIT") (pyUpper (sanStripped sql))

/-- Final value of the `corrected_sql` local of `validate_sql`: initialised to
`sql.strip()` (sql_guard.py:31) and replaced by the LIMIT-injected sanitized
text when no `LIMIT` substring is present (sql_guard.py:57). -/
def correctedVar (sql : Chars) : Chars :=
  if noLimitFlag sql then
    sanStripped sql ++ str "\nLIMIT " ++ natChars config.default_limit
  else pyStrip sql

/-- Errors of check 4 (sql_guard.py:59-64): the first `LIMIT\s+(\d+)` match of
the sanitized upper-cased text, when present, must not exceed the maximum. -/
def limitErrors (sql : Chars) : List Chars :=
  if noLimitFlag sql then []
  else
    match limitSearch (pyUpper (sanStripped sql)) with
    | some v =>
      if v > config.max_limit then
        [str "LIMIT " ++ natChars v ++ str " exceeds maximum allowed " ++
          natChars config.max_limit]
      else []
    | none => []

/-- The error list of `validate_sql`, in check order. -/
def validateErrors (sql : Chars) : List Chars :=
  selectStartErrors (pyUpper (pyStrip (stripComments sql))) ++
    keywordErrors (pyUpper (pyStrip (stripComments sql))) ++
    multiStmtErrors (stripComments sql) ++ limitErrors sql ++ forbiddenSchemaErrors sql

/-- The warning list of `validate_sql`, in check order. -/
def validateWarnings (sql : Chars) : List Chars :=
  (if noLimitFlag sql then [str "No LIMIT clause found, adding default"] else []) ++
    (if schemaWarnMatch (pyUpper sql) then [str "Query accesses non-production schemas"]
     else []) ++
    piiWarnings sql ++
    (if selectStarSearch (pyUpper (pyStrip (stripComments sql))) then
      [str "SELECT * detected - consider specifying explicit columns"]
     else [])

/-- Embedding of `SqlGuard.validate_sql` (sql_guard.py:27-93).  All checks run
unconditionally; `is_valid` holds iff there are no errors; `corrected_sql` is
reported only when the corrected text differs from the original input. -/
def validateSql (sql : Chars) : SqlValidationResult :=
  { is_valid := (validateErrors sql).isEmpty
    corrected_sql := if correctedVar sql ≠ sql then some (correctedVar sql) else none
    errors := validateErrors sql
    warnings := validateWarnings sql }

/-! Schema index and the SQL-execution guard layer of
`EnhancedToolOrchestrator` (enhanced_tool_orchestrator.py). -/

/-- Apostrophe and backtick characters (kept out of literals). -/
def aposChar : Char := Char.ofNat 39

def backtickChar : Char := Char.ofNat 96

/-- Model of `SchemaIndex` (postgres.py:176-234): the schema cache as a finite
map from `schema.table` names to column-name lists.  The live
`information_schema` fallback of `table_exists`/`get_table_columns` is folded
into this map (a table is modelled as existing iff it has an entry). -/
abbrev SchemaIdx := List (Chars × List Chars)

/-- `SchemaIndex.get_table_columns` (postgres.py:203-215). -/
def getTableColumns (idx : SchemaIdx) (t : Chars) : List Chars :=
  ((idx.find? (fun p => p.1 == t)).map Prod.snd).getD []

/-- `SchemaIndex.table_exists` (postgres.py:224-234). -/
def tableExists (idx : SchemaIdx) (t : Chars) : Bool :=
  (idx.find? (fun p => p.1 == t)).isSome

/-- `SchemaIndex.list_tables` (postgres.py:217-222), no schema filter. -/
def listTables (idx : SchemaIdx) : List Chars := idx.map Prod.fst

/-- The orchestrator's `_distinct_cache : set[tuple[str, str]]`
(enhanced_tool_orchestrator.py:208), modelled as a list of pairs. -/
abbrev DistinctCache := List (Chars × Chars)

/-- Set insertion for the distinct cache. -/
def cacheAdd (cache : DistinctCache) (p : Chars × Chars) : DistinctCache :=
  if p ∈ cache then cache else p :: cache

/-- Python truthiness of an optional string. -/
def truthyOpt (o : Option Chars) : Bool :=
  match o with
  | none => false
  | some s => s ≠ []

/-- Generic leftmost search: try `tryAt` at every position of the text. -/
def searchOpt (tryAt : Chars → Option α) : Chars → Option α
  | [] => none
  | c :: rest =>
    match tryAt (c :: rest) with
    | some r => some r
    | none => searchOpt tryAt rest

/-- Greedy match of the optional quote group `` ([`"]?) ``. -/
def quoteOpt (l : Chars) : Option Char × Chars :=
  match l with
  | c :: rest => if c = backtickChar || c = '"' then (some c, rest) else (none, l)
  | [] => (none, l)

/-- Attempt of `FROM\s+([`"]?)([\w\.]+)\1` (re.IGNORECASE) at the head of `l`,
returning group 2 (enhanced_tool_orchestrator.py:778). -/
def fromBroadAt (l : Chars) : Option Chars :=
  match ciPrefixDrop (str "FROM") l with
  | none => none
  | some t =>
    if t.takeWhile isWs = [] then none
    else
      let t2 := t.dropWhile isWs
      let (q, t3) := quoteOpt t2
      let run := t3.takeWhile (fun c => isWordChar c || c = '.')
      if run = [] then none
      else
        match q with
        | none => some run
        | some qc =>
          if (t3.dropWhile (fun c => isWordChar c || c = '.')).head? = some qc then some run
          else none

/-- `re.search(r"FROM\s+([`\"]?)([\w\.]+)\1", sql, re.IGNORECASE)`
(enhanced_tool_orchestrator.py:778). -/
def fromTableSearchBroad (sql : Chars) : Option Chars := searchOpt fromBroadAt sql

/-- Attempt of `FROM\s+([`"]?)(\w+\.\w+)\1` at the head of `l`, returning
group 2 (enhanced_tool_orchestrator.py:897). -/
def fromSchemaTableAt (l : Chars) : Option Chars :=
  match ciPrefixDrop (str "FROM") l with
  | none => none
  | some t =>
    if t.takeWhile isWs = [] then none
    else
      let t2 := t.dropWhile isWs
      let (q, t3) := quoteOpt t2
      let w1 := t3.takeWhile isWordChar
      let t4 := t3.dropWhile isWordChar
      if w1 = [] || t4.head? ≠ some '.' then none
      else
        let w2 := (t4.drop 1).takeWhile isWordChar
        let t5 := (t4.drop 1).dropWhile isWordChar
        if w2 = [] then none
        else
          match q with
          | none => some (w1 ++ '.' :: w2)
          | some qc => if t5.head? = some qc then some (w1 ++ '.' :: w2) else none

/-- `re.search(r"FROM\s+([`\"]?)(\w+\.\w+)\1", sql, re.IGNORECASE)`. -/
def fromSchemaTableSearch (sql : Chars) : Option Chars := searchOpt fromSchemaTableAt sql

/-- Attempt of `(\w+)\s*=\s*'([^']+)'` at the head of `l`
(enhanced_tool_orchestrator.py:886). -/
def eqFilterAt (l : Chars) : Option (Chars × Chars) :=
  let run := l.takeWhile isWordChar
  if run = [] then none
  else
    let t := (l.dropWhile isWordChar).dropWhile isWs
    if t.head? ≠ some '=' then none
    else
      let t2 := (t.drop 1).dropWhile isWs
      if t2.head? ≠ some aposChar then none
      else
        let v := (t2.drop 1).takeWhile (· ≠ aposChar)
        if v ≠ [] && ((t2.drop 1).dropWhile (· ≠ aposChar)).head? = some aposChar then
          some (run, v)
        else none

/-- `re.search(r"(\w+)\s*=\s*'([^']+)'", sql, re.IGNORECASE)`. -/
def eqFilterSearch (sql : Chars) : Option (Chars × Chars) := searchOpt eqFilterAt sql

/-- Attempt of `(\w+)\s+IN\s*\(\s*'([^']+)'` at the head of `l`
(enhanced_tool_orchestrator.py:887). -/
def inFilterAt (l : Chars) : Option (Chars × Chars) :=
  let run := l.takeWhile isWordChar
  if run = [] then none
  else
    let t := l.dropWhile isWordChar
    if t.takeWhile isWs = [] then none
    else
      match ciPrefixDrop (str "IN") (t.dropWhile isWs) with
      | none => none
      | some t2 =>
        let t3 := t2.dropWhile isWs
        if t3.head? ≠ some '(' then none
        else
          let t4 := (t3.drop 1).dropWhile isWs
          if t4.head? ≠ some aposChar then none
          else
            let v := (t4.drop 1).takeWhile (· ≠ aposChar)
            if v ≠ [] && ((t4.drop 1).dropWhile (· ≠ aposChar)).head? = some aposChar then
              some (run, v)
            else none

/-- `re.search(r"(\w+)\s+IN\s*\(\s*'([^']+)'", sql, re.IGNORECASE)`. -/
def inFilterSearch (sql : Chars) : Option (Chars × Chars) := searchOpt inFilterAt sql

/-- Embedding of `_check_where_clauses_need_distinct_values`
(enhanced_tool_orchestrator.py:877-907): `none` models
`{"needs_distinct": False}`; `some (table, column, value)` the positive
answer.  The two filter patterns are tried in source order; a pattern whose
filter matches but whose table pattern does not falls through to the next. -/
def checkWhere (sql : Chars) : Option (Chars × Chars × Chars) :=
  if sql = [] || !containsSub (str "WHERE") (pyUpper sql) then none
  else
    let withTable := fun (res : Option (Chars × Chars)) =>
      match res with
      | some (col, v) => (fromSchemaTableSearch sql).map (fun tbl => (tbl, col, v))
      | none => none
    match withTable (eqFilterSearch sql) with
    | some r => some r
    | none => withTable (inFilterSearch sql)

/-- One entry of the `missing` list built by `_missing_distinct`
(enhanced_tool_orchestrator.py:909-930); `colMissing` records the presence of
the `"error": "column_not_in_table"` key. -/
structure MissingEntry where
  table : Chars
  column : Chars
  colMissing : Bool
  candidates : List Chars
deriving Repr, DecidableEq

/-- Embedding of `_find_tables_with_column` (enhanced_tool_orchestrator.py:932-942)
with its default `limit=10`: scan the schema index in order, collecting tables
containing the column (case-insensitively), stopping once the limit is
reached. -/
def findTablesWithColumn (idx : SchemaIdx) (col : Chars) : List Chars :=
  go idx 0
where
  go : SchemaIdx → Nat → List Chars
    | [], _ => []
    | (t, cols) :: rest, n =>
      if cols.any (fun c => pyLower c == pyLower col) then
        if n + 1 ≥ 10 then [t] else t :: go rest (n + 1)
      else go rest n

/-- Embedding of `_missing_distinct` (enhanced_tool_orchestrator.py:909-930). -/
def missingDistinct (idx : SchemaIdx) (cache : DistinctCache) (sql : Chars) :
    List MissingEntry :=
  match checkWhere sql with
  | none => []
  | some (tbl, col, _v) =>
    if tbl ≠ [] ∧ col ≠ [] then
      let tcols := (getTableColumns idx tbl).map pyLower
      if !(tcols.contains (pyLower col)) then
        [⟨tbl, col, true, findTablesWithColumn idx col⟩]
      else if !(cache.contains (pyLower tbl, pyLower col)) then [⟨tbl, col, false, []⟩]
      else []
    else []

/-- Attempt, at the head of `l`, of the regex denoted by the Python raw string
`r"FROM\\s+([\\w\\.]+)"` with `re.IGNORECASE`
(enhanced_tool_orchestrator.py:807).  Because the backslashes are doubled
inside a raw string, the regex is: literal `FROM`, a literal backslash, one or
more letters `s`, then one or more characters from the class
backslash/`w`/dot (case-insensitively, so `W` as well). -/
def brokenFromAt (l : Chars) : Option Chars :=
  match ciPrefixDrop (str "FROM") l with
  | none => none
  | some t =>
    if t.head? ≠ some '\\' then none
    else
      let t2 := (t.drop 1)
      let run1 := t2.takeWhile (fun c => c = 's' || c = 'S')
      if run1 = [] then none
      else
        let t3 := t2.dropWhile (fun c => c = 's' || c = 'S')
        let run2 := t3.takeWhile (fun c => c = '\\' || c = 'w' || c = 'W' || c = '.')
        if run2 = [] then none else some run2

/-- `re.search(r"FROM\\s+([\\w\\.]+)", sql, re.IGNORECASE)`. -/
def brokenFromSearch (sql : Chars) : Option Chars := searchOpt brokenFromAt sql

/-- Embedding of `_rewrite_sql_for_missing_columns`
(enhanced_tool_orchestrator.py:802-857).  The source first searches the
(mis-escaped) pattern `r"FROM\\s+([\\w\\.]+)"` and returns the SQL unchanged
when it does not match; the rest of the function — reachable only for SQL
containing a literal backslash — is modelled by the uninterpreted continuation
`cont` applied to the SQL and the matched group. -/
def rewriteSqlForMissingColumns (cont : Chars → Chars → Chars) (sql : Chars) : Chars :=
  match brokenFromSearch sql with
  | none => sql
  | some tbl => cont sql tbl

/-- Outcome of dispatching the `run_sql_query` tool
(`_run_sql_with_distinct_guard` composed with `_tool_run_sql_query`,
enhanced_tool_orchestrator.py:742-800).  `executed finalSql` records the exact
statement handed to the query-execution capability
(`self.postgres.execute_sql(final_sql)`, line 753); the other constructors are
the structured refusals returned instead of executing. -/
inductive GuardResult where
  | tableNotFound (table : Chars)
  | mustFetch (missing : List MissingEntry)
  | validationFailed (errors : List Chars)
  | executed (finalSql : Chars)
deriving Repr, DecidableEq

/-- Embedding of `_tool_run_sql_query` (enhanced_tool_orchestrator.py:742-770)
up to the execution boundary: validate, then execute `corrected_sql or sql`. -/
def runSqlQueryTool (sql : Chars) : GuardResult :=
  if !(validateSql sql).is_valid then .validationFailed (validateSql sql).errors
  else .executed ((validateSql sql).corrected_sql.getD sql)

/-- Continuation of `_run_sql_with_distinct_guard` after the table-existence
precheck (enhanced_tool_orchestrator.py:788-800): rewrite, distinct gate,
then `_tool_run_sql_query`. -/
def runSqlAfterPrecheck (cont : Chars → Chars → Chars) (idx : SchemaIdx)
    (cache : DistinctCache) (sql : Chars) : GuardResult :=
  match missingDistinct idx cache (rewriteSqlForMissingColumns cont sql) with
  | [] => runSqlQueryTool (rewriteSqlForMissingColumns cont sql)
  | ms => GuardResult.mustFetch ms

/-- Embedding of `_run_sql_with_distinct_guard`
(enhanced_tool_orchestrator.py:772-800): table-existence precheck on the raw
SQL, then the (broken) rewrite, then the distinct-value gate, then
`_tool_run_sql_query`. -/
def runSqlGuarded (cont : Chars → Chars → Chars) (idx : SchemaIdx)
    (cache : DistinctCache) (sql : Chars) : GuardResult :=
  match fromTableSearchBroad sql with
  | some t =>
    if tableExists idx t then runSqlAfterPrecheck cont idx cache sql
    else .tableNotFound t
  | none => runSqlAfterPrecheck cont idx cache sql

/-- Outcome of `postgres.get_distinct_values` as seen by
`_tool_get_distinct_values` (enhanced_tool_orchestrator.py:724-740): a value
list, or an exception message. -/
inductive FetchOutcome where
  | ok (values : List Chars)
  | err (msg : Chars)

/-- Result dictionary of `_tool_get_distinct_values`. -/
structure DistinctResult where
  error : Option Chars
  table : Chars
  column : Chars
  values : List Chars
  count : Nat
deriving Repr, DecidableEq

/-- Embedding of `_tool_get_distinct_values` (enhanced_tool_orchestrator.py:724-740). -/
def toolGetDistinctValues (fetch : Chars → Chars → Nat → FetchOutcome)
    (table column : Chars) (limit : Nat) : DistinctResult :=
  match fetch table column limit with
  | .ok vs => ⟨none, table, column, vs, vs.length⟩
  | .err m => ⟨some m, table, column, [], 0⟩

/-- The `get_distinct_values` arm of `_execute_tool`
(enhanced_tool_orchestrator.py:490-496): run the tool and, when the result
carries no (truthy) error and both names are non-empty, record the
lower-cased `(table, column)` pair in the distinct cache. -/
def execDistinctArm (fetch : Chars → Chars → Nat → FetchOutcome)
    (cache : DistinctCache) (table column : Chars) (limit : Nat) :
    DistinctResult × DistinctCache :=
  let res := toolGetDistinctValues fetch table column limit
  let cache' :=
    if !truthyOpt res.error && res.table ≠ [] && res.column ≠ [] then
      cacheAdd cache (pyLower res.table, pyLower res.column)
    else cache
  (res, cache')

/-- Outcome of `postgres.execute_sql` as seen by `_tool_check_table_row_count`:
either an exception or the result dictionary (success flag and dataframe,
rows modelled as association lists from column name to integer value). -/
inductive PgOutcome where
  | raises (msg : Chars)
  | result (success : Bool) (df : Option (List (List (Chars × Int))))

/-- Result dictionary of `_tool_check_table_row_count`; optional fields model
keys absent from some of the returned dictionaries. -/
structure RowCountResult where
  table : Option Chars
  row_count : Option Int
  has_data : Option Bool
  error : Option Chars
deriving Repr, DecidableEq

/-- The interpolated query of `_tool_check_table_row_count`
(enhanced_tool_orchestrator.py:652). -/
def rowCountSql (table : Chars) : Chars :=
  str "SELECT COUNT(*) as row_count FROM " ++ table ++ str " LIMIT 1"

/-- Embedding of `_tool_check_table_row_count`
(enhanced_tool_orchestrator.py:645-662).  The second component is the
statement handed to `postgres.execute_sql` (`none` when nothing is executed).
A missing `row_count` column in the first dataframe row models the `KeyError`
caught by the `except` branch (whose `str(e)` is `'row_count'` quoted). -/
def toolCheckTableRowCount (pg : Chars → PgOutcome) (table : Chars) :
    RowCountResult × Option Chars :=
  if table = [] then (⟨none, none, none, some (str "Table name required")⟩, none)
  else
    match pg (rowCountSql table) with
    | .raises m => (⟨some table, none, some false, some m⟩, some (rowCountSql table))
    | .result success df =>
      if success then
        match df with
        | some (row :: _) =>
          match row.lookup (str "row_count") with
          | some v =>
            (⟨some table, some v, some (decide (v > 0)), none⟩, some (rowCountSql table))
          | none =>
            (⟨some table, none, some false,
              some (aposChar :: str "row_count" ++ [aposChar])⟩, some (rowCountSql table))
        | some [] =>
          (⟨some table, some 0, some false, some (str "Could not count rows")⟩,
            some (rowCountSql table))
        | none =>
          (⟨some table, some 0, some false, some (str "Could not count rows")⟩,
            some (rowCountSql table))
      else
        (⟨some table, some 0, some false, some (str "Could not count rows")⟩,
          some (rowCountSql table))

/-! Conversation-context extraction (`ConversationManager`,
conversation_manager.py) and intent routing (`EnhancedIntentRouter`,
enhanced_router.py). -/

/-- Generic `re.findall` engine: scan left to right carrying the previous
character (for word-boundary tests); on a match of length `len`, emit the
capture and continue after the match (non-overlapping), implemented with a
skip counter. -/
def findAllPrev (tryAt : Option Char → Chars → Option (α × Nat)) :
    Option Char → Nat → Chars → List α
  | _, _, [] => []
  | _prev, skip + 1, c :: rest => findAllPrev tryAt (some c) skip rest
  | prev, 0, c :: rest =>
    match tryAt prev (c :: rest) with
    | some (a, len) => a :: findAllPrev tryAt (some c) (len - 1) rest
    | none => findAllPrev tryAt (some c) 0 rest

/-- Attempt of the table patterns of `_extract_tables_from_sql`
(conversation_manager.py:59-64): `\b<kw>\s+([`"]?)(\w+\.\w+)\1` when
`withDot`, else `\b<kw>\s+([`"]?)(\w+)\1`, with `re.IGNORECASE`; returns
group 2 and the match length. -/
def tblAt (kw : Chars) (withDot : Bool) (prev : Option Char) (l : Chars) :
    Option (Chars × Nat) :=
  if !prev.all (fun p => !isWordChar p) then none
  else
    match ciPrefixDrop kw l with
    | none => none
    | some t =>
      let wsLen := (t.takeWhile isWs).length
      if wsLen = 0 then none
      else
        let t2 := t.dropWhile isWs
        let (q, t3) := quoteOpt t2
        let qLen := if q.isSome then 1 else 0
        let w1 := t3.takeWhile isWordChar
        if w1 = [] then none
        else
          let t4 := t3.dropWhile isWordChar
          if withDot then
            if t4.head? ≠ some '.' then none
            else
              let w2 := (t4.drop 1).takeWhile isWordChar
              let t5 := (t4.drop 1).dropWhile isWordChar
              if w2 = [] then none
              else
                let g := w1 ++ '.' :: w2
                let len := kw.length + wsLen + 2 * qLen + w1.length + 1 + w2.length
                match q with
                | none => some (g, len)
                | some qc => if t5.head? = some qc then some (g, len) else none
          else
            let len := kw.length + wsLen + 2 * qLen + w1.length
            match q with
            | none => some (w1, len)
            | some qc => if t4.head? = some qc then some (w1, len) else none

/-- Append the elements of `ts` not already present (the `if table_name not in
tables: tables.append(...)` loop). -/
def dedupAppend : List Chars → List Chars → List Chars
  | [], acc => acc
  | t :: rest, acc => if t ∈ acc then dedupAppend rest acc else dedupAppend rest (acc ++ [t])

/-- Embedding of `_extract_tables_from_sql` (conversation_manager.py:52-73):
the four patterns are each applied with `re.findall` over the whole SQL, in
source order, deduplicating as matches are appended. -/
def extractTablesFromSql (sql : Chars) : List Chars :=
  if sql = [] then []
  else
    dedupAppend
      (findAllPrev (tblAt (str "FROM") true) none 0 sql ++
        findAllPrev (tblAt (str "FROM") false) none 0 sql ++
        findAllPrev (tblAt (str "JOIN") true) none 0 sql ++
        findAllPrev (tblAt (str "JOIN") false) none 0 sql) []

/-- Character class `[^ORDER|LIMIT|;]` under `re.IGNORECASE`: both cases of
each listed letter, the pipe and the semicolon are excluded. -/
def gbExcluded (c : Char) : Bool :=
  let u := upC c
  u = 'O' || u = 'R' || u = 'D' || u = 'E' || u = 'L' || u = 'I' || u = 'M' || u = 'T' ||
    c = '|' || c = ';'

/-- Backtracking of the second `\s+` of `GROUP\s+BY\s+([^ORDER|LIMIT|;]+)`:
try the greedy whitespace length first, then shorter, and capture the maximal
run of non-excluded characters that follows. -/
def gbTry (t2 : Chars) : Nat → Option Chars
  | 0 => none
  | k + 1 =>
    let rest := t2.drop (k + 1)
    match rest.head? with
    | some c =>
      if !gbExcluded c then some (rest.takeWhile (fun d => !gbExcluded d))
      else gbTry t2 k
    | none => gbTry t2 k

/-- Attempt of `GROUP\s+BY\s+([^ORDER|LIMIT|;]+)` (re.IGNORECASE) at the head
of `l` (conversation_manager.py:106). -/
def groupByAt (l : Chars) : Option Chars :=
  match ciPrefixDrop (str "GROUP") l with
  | none => none
  | some t =>
    if t.takeWhile isWs = [] then none
    else
      match ciPrefixDrop (str "BY") (t.dropWhile isWs) with
      | none => none
      | some t2 => gbTry t2 (t2.takeWhile isWs).length

/-- Python `str.strip('`"')`: remove backticks and double quotes from both
ends. -/
def stripTicks (s : Chars) : Chars :=
  let p := fun c => c = backtickChar || c = '"'
  ((s.dropWhile p).reverse.dropWhile p).reverse

/-- Embedding of `_extract_dimensions_from_sql`
(conversation_manager.py:101-113). -/
def extractDimensionsFromSql (sql : Chars) : List Chars :=
  if sql = [] then []
  else
    match searchOpt groupByAt sql with
    | some grp => ((pyStrip grp).splitOn ',').map (fun d => stripTicks (pyStrip d))
    | none => []

/-- Test for `\s+FROM` (re.IGNORECASE) at the head of `l`. -/
def wsFromAt (l : Chars) : Bool :=
  l.takeWhile isWs ≠ [] && (ciPrefixDrop (str "FROM") (l.dropWhile isWs)).isSome

/-- Lazy group `(.*?)` of `SELECT\s+(.*?)\s+FROM` (DOTALL): the shortest
prefix of `u` followed by `\s+FROM`. -/
def lazyToFrom : Chars → Option Chars
  | [] => none
  | c :: rest => if wsFromAt (c :: rest) then some [] else (lazyToFrom rest).map (c :: ·)

/-- Backtracking of the first `\s+` of `SELECT\s+(.*?)\s+FROM`. -/
def selTry (t : Chars) : Nat → Option Chars
  | 0 => none
  | k + 1 =>
    match lazyToFrom (t.drop (k + 1)) with
    | some g => some g
    | none => selTry t k

/-- Attempt of `SELECT\s+(.*?)\s+FROM` (re.IGNORECASE | re.DOTALL) at the head
of `l` (conversation_manager.py:82). -/
def selectClauseAt (l : Chars) : Option Chars :=
  match ciPrefixDrop (str "SELECT") l with
  | none => none
  | some t => selTry t (t.takeWhile isWs).length

/-- Attempt of `<fn>\s*\(\s*([^)]+)\s*\)` (re.IGNORECASE) at the head of `l`
(conversation_manager.py:88-92), returning the captured argument and the match
length.  The leading `\s*` inside the parentheses backtracks when everything
before the closing parenthesis is whitespace. -/
def aggAt (fn : Chars) (_prev : Option Char) (l : Chars) : Option (Chars × Nat) :=
  match ciPrefixDrop fn l with
  | none => none
  | some t =>
    let w1 := (t.takeWhile isWs).length
    let t2 := t.dropWhile isWs
    if t2.head? ≠ some '(' then none
    else
      let t3 := t2.drop 1
      let run := t3.takeWhile (· ≠ ')')
      if run = [] then none
      else if (t3.dropWhile (· ≠ ')')).head? ≠ some ')' then none
      else
        let w := (t3.takeWhile isWs).length
        let grp := if run.drop w ≠ [] then run.drop w else run.getLast?.toList
        some (grp, fn.length + w1 + 1 + run.length + 1)

/-- Embedding of `_extract_metrics_from_sql` (conversation_manager.py:75-99):
aggregate arguments found in the `SELECT ... FROM` clause, at most five. -/
def extractMetricsFromSql (sql : Chars) : List Chars :=
  if sql = [] then []
  else
    match searchOpt selectClauseAt sql with
    | none => []
    | some clause =>
      (([str "COUNT", str "SUM", str "AVG", str "MIN", str "MAX"].map
        (fun fn => findAllPrev (aggAt fn) none 0 clause)).flatten).take 5

/-- Terminator `(?:GROUP|ORDER|LIMIT|$)` of the WHERE-clause pattern. -/
def whereTermAt (u : Chars) : Bool :=
  (ciPrefixDrop (str "GROUP") u).isSome || (ciPrefixDrop (str "ORDER") u).isSome ||
    (ciPrefixDrop (str "LIMIT") u).isSome || u = []

/-- Lazy group `(.+?)` of `WHERE\s+(.+?)(?:GROUP|ORDER|LIMIT|$)` (DOTALL). -/
def lazyToTerm : Chars → Option Chars
  | [] => none
  | c :: rest => if whereTermAt rest then some [c] else (lazyToTerm rest).map (c :: ·)

/-- Backtracking of the `\s+` of the WHERE-clause pattern. -/
def whereTry (t : Chars) : Nat → Option Chars
  | 0 => none
  | k + 1 =>
    match lazyToTerm (t.drop (k + 1)) with
    | some g => some g
    | none => whereTry t k

/-- Attempt of `WHERE\s+(.+?)(?:GROUP|ORDER|LIMIT|$)`
(re.IGNORECASE | re.DOTALL) at the head of `l` (conversation_manager.py:121). -/
def whereClauseAt (l : Chars) : Option Chars :=
  match ciPrefixDrop (str "WHERE") l with
  | none => none
  | some t => whereTry t (t.takeWhile isWs).length

/-- Attempt of `(\w+)\s*=\s*'([^']+)'` returning groups and match length
(filter pattern 1, conversation_manager.py:127). -/
def eqFilterAtLen (_prev : Option Char) (l : Chars) : Option ((Chars × Chars) × Nat) :=
  let run := l.takeWhile isWordChar
  if run = [] then none
  else
    let t := l.dropWhile isWordChar
    let ws1 := (t.takeWhile isWs).length
    let t1 := t.dropWhile isWs
    if t1.head? ≠ some '=' then none
    else
      let t2 := (t1.drop 1)
      let ws2 := (t2.takeWhile isWs).length
      let t3 := t2.dropWhile isWs
      if t3.head? ≠ some aposChar then none
      else
        let v := (t3.drop 1).takeWhile (· ≠ aposChar)
        if v ≠ [] && ((t3.drop 1).dropWhile (· ≠ aposChar)).head? = some aposChar then
          some ((run, v), run.length + ws1 + 1 + ws2 + 1 + v.length + 1)
        else none

/-- Attempt of `(\w+)\s*=\s*(\w+)` returning groups and match length
(filter pattern 2, conversation_manager.py:128). -/
def eqBareFilterAtLen (_prev : Option Char) (l : Chars) : Option ((Chars × Chars) × Nat) :=
  let run := l.takeWhile isWordChar
  if run = [] then none
  else
    let t := l.dropWhile isWordChar
    let ws1 := (t.takeWhile isWs).length
    let t1 := t.dropWhile isWs
    if t1.head? ≠ some '=' then none
    else
      let t2 := (t1.drop 1)
      let ws2 := (t2.takeWhile isWs).length
      let t3 := t2.dropWhile isWs
      let v := t3.takeWhile isWordChar
      if v = [] then none
      else some ((run, v), run.length + ws1 + 1 + ws2 + v.length)

/-- Attempt of `(\w+)\s+IN\s*\([^)]+\)` returning the single group and match
length (filter pattern 3, conversation_manager.py:129). -/
def inBareFilterAtLen (_prev : Option Char) (l : Chars) : Option (Chars × Nat) :=
  let run := l.takeWhile isWordChar
  if run = [] then none
  else
    let t := l.dropWhile isWordChar
    let ws1 := (t.takeWhile isWs).length
    if ws1 = 0 then none
    else
      match ciPrefixDrop (str "IN") (t.dropWhile isWs) with
      | none => none
      | some t2 =>
        let ws2 := (t2.takeWhile isWs).length
        let t3 := t2.dropWhile isWs
        if t3.head? ≠ some '(' then none
        else
          let inner := (t3.drop 1).takeWhile (· ≠ ')')
          if inner = [] then none
          else if ((t3.drop 1).dropWhile (· ≠ ')')).head? ≠ some ')' then none
          else some (run, run.length + ws1 + 2 + ws2 + 1 + inner.length + 1)

/-- Embedding of `_extract_filters_from_sql` (conversation_manager.py:115-140):
patterns applied in source order over the stripped WHERE clause; two-group
matches render as `col = value`, the `IN` pattern as the bare column name; at
most three filters. -/
def extractFiltersFromSql (sql : Chars) : List Chars :=
  if sql = [] then []
  else
    match searchOpt whereClauseAt sql with
    | none => []
    | some grp =>
      let clause := pyStrip grp
      let f1 := (findAllPrev eqFilterAtLen none 0 clause).map
        (fun p => p.1 ++ str " = " ++ p.2)
      let f2 := (findAllPrev eqBareFilterAtLen none 0 clause).map
        (fun p => p.1 ++ str " = " ++ p.2)
      let f3 := findAllPrev inBareFilterAtLen none 0 clause
      (f1 ++ f2 ++ f3).take 3

/-- Metadata of one history message as read by
`extract_conversation_context` (conversation_manager.py:27-44). -/
structure HistMeta where
  sql_used : Option Chars
  chart_ids_used : List Int
deriving Repr, DecidableEq

/-- One chat-history message. -/
structure HistMsg where
  role : Chars
  metadata : HistMeta
deriving Repr, DecidableEq

/-- The `ConversationContext` model (models.py:14-22). -/
structure ConversationContext where
  last_sql_query : Option Chars
  last_tables_used : List Chars
  last_chart_ids : List Chars
  last_metrics : List Chars
  last_dimensions : List Chars
  last_filters : List Chars
  last_response_type : Option Chars
deriving Repr, DecidableEq

/-- Default-constructed `ConversationContext()`. -/
def emptyContext : ConversationContext := ⟨none, [], [], [], [], [], none⟩

/-- Decimal rendering of an integer, Python `str(i)`. -/
def intChars (i : Int) : Chars := str (toString i)

/-- Reverse-order scan of `extract_conversation_context`
(conversation_manager.py:23-48), including the early break once both SQL and
chart context are captured. -/
def extractLoop : List HistMsg → ConversationContext → ConversationContext
  | [], ctx => ctx
  | m :: rest, ctx =>
    if m.role ≠ str "assistant" then extractLoop rest ctx
    else
      let ctx1 :=
        if truthyOpt m.metadata.sql_used && !truthyOpt ctx.last_sql_query then
          let s := m.metadata.sql_used.getD []
          { ctx with
            last_sql_query := m.metadata.sql_used
            last_tables_used := extractTablesFromSql s
            last_response_type := some (str "sql_result")
            last_metrics := extractMetricsFromSql s
            last_dimensions := extractDimensionsFromSql s
            last_filters := extractFiltersFromSql s }
        else ctx
      let ctx2 :=
        if m.metadata.chart_ids_used ≠ [] && ctx1.last_chart_ids = [] then
          { ctx1 with
            last_chart_ids := m.metadata.chart_ids_used.map intChars
            last_response_type :=
              if truthyOpt ctx1.last_response_type then ctx1.last_response_type
              else some (str "metadata_answer") }
        else ctx1
      if truthyOpt ctx2.last_sql_query && ctx2.last_chart_ids ≠ [] then ctx2
      else extractLoop rest ctx2

/-- Embedding of `ConversationManager.extract_conversation_context`
(conversation_manager.py:15-50) with `max_history_turns = 10`. -/
def extractConversationContext (history : List HistMsg) : ConversationContext :=
  let recent := if history = [] then [] else history.drop (history.length - 10)
  extractLoop recent.reverse emptyContext

/-- Flattened `FollowUpContext` (models.py:24-29) as built by the heuristic
(enhanced_router.py:80-87): `reusable_elements` keys become fields. -/
structure FollowUpCtx where
  is_follow_up : Bool
  previous_sql : Option Chars
  previous_tables : List Chars
  previous_chart_ids : List Chars
deriving Repr, DecidableEq

/-- `RouterResponse` (models.py:31-37); the intent is carried as its string
value. -/
structure RouterResponse where
  intent : Chars
  confidence : ℚ
  reason : Chars
  force_tool_usage : Bool
  follow_up_context : Option FollowUpCtx
deriving Repr, DecidableEq

/-- Token character of the router tokenizer pattern `[\w']`. -/
def isTokChar (c : Char) : Bool := isWordChar c || c = aposChar

/-- Word-boundary test between an optional previous character and an optional
next character position: exactly one side is a word character. -/
def xorBound (a : Option Char) (b : Option Char) : Bool :=
  (a.any isWordChar) != (b.any isWordChar)

/-- Attempt of one token of `\b[\w']+\b` at the head of `l` (greedy with
end-boundary backtracking), returning the token and its length. -/
def tokTryAt (prev : Option Char) (l : Chars) : Option (Chars × Nat) :=
  let run := l.takeWhile isTokChar
  match run with
  | [] => none
  | h :: _ =>
    if !xorBound prev (some h) then none
    else
      match tokLen run l run.length with
      | some len => some (l.take len, len)
      | none => none
where
  tokLen (run l : Chars) : Nat → Option Nat
    | 0 => none
    | len + 1 =>
      if xorBound ((run.take (len + 1)).getLast?) ((l.drop (len + 1)).head?) then
        some (len + 1)
      else tokLen run l len

/-- Python `re.findall(r"\b[\w']+\b", q)` (enhanced_router.py:45). -/
def tokenize (q : Chars) : List Chars := findAllPrev tokTryAt none 0 q

/-- Greeting set of the heuristic (enhanced_router.py:48). -/
def greetings : List Chars :=
  [str "hi", str "hey", str "hello", str "gm", str "good morning", str "thanks",
   str "thank you"]

/-- Organisational terms (enhanced_router.py:58). -/
def orgTerms : List Chars :=
  [str "mission", str "vision", str "bhumi", str "organization", str "org", str "ngo"]

/-- Follow-up substring indicators (enhanced_router.py:69-73). -/
def followUpIndicators : List Chars :=
  [str "now", str "also", str "same but", str "split by", str "break down",
   str "filter to", str "only", str "exclude", str "by district", str "by month",
   str "by chapter", str "last quarter", str "this month", str "weekly", str "daily"]

/-- Embedding of `EnhancedIntentRouter._heuristic_classification`
(enhanced_router.py:42-90): `none` models the `return None  # Use LLM for
complex cases` fall-through. -/
def heuristicClassification (query : Chars) (context : ConversationContext) :
    Option RouterResponse :=
  let q := pyLower (pyStrip query)
  let tokens := tokenize q
  if tokens ≠ [] && tokens.all (fun t => t ∈ greetings) && tokens.length ≤ 4 then
    some ⟨str "small_talk", (0.95 : ℚ), str "Greeting or social pleasantry", false, none⟩
  else if tokens.any (fun t => t ∈ orgTerms) then
    some ⟨str "query_without_sql", (0.8 : ℚ),
      str "Organizational info request (mission/vision/context)", false, none⟩
  else if (truthyOpt context.last_sql_query || context.last_chart_ids ≠ []) &&
      followUpIndicators.any (fun ind => containsSub ind q) then
    some ⟨str "follow_up_sql", (0.9 : ℚ),
      str "Follow-up query detected with previous SQL context", true,
      some ⟨true, context.last_sql_query, context.last_tables_used,
        context.last_chart_ids⟩⟩
  else none

/-- Embedding of `EnhancedIntentRouter.classify_intent`
(enhanced_router.py:24-39): extract the conversation context, then delegate
unconditionally to `_llm_classification` — the completion-capability boundary,
modelled by the oracle `llm`.  The heuristic fast path
(`heuristicClassification`) is not consulted anywhere on this path. -/
def classifyIntent (llm : Chars → ConversationContext → RouterResponse)
    (query : Chars) (history : List HistMsg) : RouterResponse :=
  llm query (extractConversationContext history)

/-! The tool-orchestration loop `_execute_tool_loop`
(enhanced_tool_orchestrator.py:294-410).  The completion capability
(`_openai_chat`, including its internal retry/degradation) and the tool
executor (`_execute_tool`, which owns mutable tool state such as the distinct
cache) are modelled as oracles supplied to the loop. -/

/-- One tool-call request returned by the completion capability. -/
structure ToolCallReq where
  id : Chars
  name : Chars
  args : Chars
deriving Repr, DecidableEq

/-- Reply of `_openai_chat`: content plus tool calls (both possibly empty). -/
structure ModelReply where
  content : Chars
  toolCalls : List ToolCallReq
deriving Repr, DecidableEq

/-- Structured result of one `_execute_tool` dispatch, with the fields the
loop inspects; `docs` carries the `doc_id` values of a `retrieve_docs`
result. -/
structure ToolResult where
  success : Bool
  error : Option Chars
  sql_used : Option Chars
  data_preview : Option Chars
  row_count : Option Int
  columns : List Chars
  rows : List (List (Chars × Chars))
  docs : List Chars
deriving Repr, DecidableEq

/-- The `last_sql_result` snapshot dictionary built at
enhanced_tool_orchestrator.py:354-361. -/
structure SqlResSnapshot where
  success : Bool
  row_count : Option Int
  data_preview : Option Chars
  columns : List Chars
  rows : List (List (Chars × Chars))
  error : Option Chars
deriving Repr, DecidableEq

/-- Message records accumulated by the loop. -/
inductive MsgRec where
  | system (content : Chars)
  | user (content : Chars)
  | assistant (content : Chars) (toolCalls : List ToolCallReq)
  | tool (callId : Chars) (result : ToolResult)
deriving Repr, DecidableEq

/-- The `execution_info` dictionary of an `AgentResponse`
(`max_turns_reached` is absent — modelled `false` — on non-exhaustion
paths). -/
structure ExecInfo where
  intent : Chars
  trace : List (Chars × Chars × ToolResult)
  turns : Nat
  max_turns_reached : Bool
  sql_result : Option SqlResSnapshot
deriving Repr, DecidableEq

/-- The fields of `AgentResponse` (models.py:63-71) produced by the loop. -/
structure AgentResp where
  response_text : Chars
  sql_used : Option Chars
  sources_used : List Chars
  execution_info : ExecInfo
deriving Repr, DecidableEq

/-- Mutable state threaded through one loop execution. -/
structure LoopState (σ : Type) where
  msgs : List MsgRec
  trace : List (Chars × Chars × ToolResult)
  retrieved : List Chars
  lastSql : Option Chars
  lastSqlResult : Option SqlResSnapshot
  toolSt : σ

/-- The terminal apology text (enhanced_tool_orchestrator.py:398). -/
def apologyText : Chars :=
  str "I'm sorry, I couldn't get enough data to answer this. Please simplify or restate your question."

/-- Snapshot extraction from a `run_sql_query` tool result
(enhanced_tool_orchestrator.py:354-361). -/
def snapshotOf (r : ToolResult) : SqlResSnapshot :=
  ⟨r.success, r.row_count, r.data_preview, r.columns, r.rows, r.error⟩

/-- Sequential dispatch of the tool calls of one turn
(enhanced_tool_orchestrator.py:336-378): each call is executed, appended to
the trace, handled per tool name, and its result appended as a tool message;
a successful `run_sql_query` returns the response immediately (the remaining
calls of the turn are not dispatched and no tool message is appended for the
successful call). -/
def processCalls (execTool : σ → Chars → Chars → ToolResult × σ) (intent : Chars)
    (turn : Nat) : List ToolCallReq → LoopState σ → AgentResp ⊕ LoopState σ
  | [], st => .inr st
  | c :: restCalls, st =>
    let result := (execTool st.toolSt c.name c.args).1
    let s' := (execTool st.toolSt c.name c.args).2
    let st1 : LoopState σ :=
      { st with toolSt := s', trace := st.trace ++ [(c.name, c.args, result)] }
    let st2 : LoopState σ :=
      if c.name = str "retrieve_docs" then
        { st1 with retrieved := st1.retrieved ++ result.docs }
      else st1
    if c.name = str "run_sql_query" ∧ result.error ≠ some (str "must_fetch_distinct_values") then
      let st3 : LoopState σ :=
        { st2 with lastSql := result.sql_used, lastSqlResult := some (snapshotOf result) }
      if result.success then
        .inl
          { response_text := result.data_preview.getD (str "Query executed successfully.")
            sql_used := st3.lastSql
            sources_used := st3.retrieved
            execution_info :=
              ⟨intent, st3.trace, turn + 1, false, st3.lastSqlResult⟩ }
      else
        processCalls execTool intent turn restCalls
          { st3 with msgs := st3.msgs ++ [.tool c.id result] }
    else
      processCalls execTool intent turn restCalls
        { st2 with msgs := st2.msgs ++ [.tool c.id result] }

/-- Exhaustion exit of the loop (enhanced_tool_orchestrator.py:380-410): the
best-successful-result branch, else the apology. -/
def maxTurnsExit (intent : Chars) (maxTurns : Nat) (st : LoopState σ) : AgentResp :=
  match st.lastSqlResult with
  | some snap =>
    if snap.success then
      { response_text := snap.data_preview.getD (str "Query executed successfully.")
        sql_used := st.lastSql
        sources_used := st.retrieved
        execution_info := ⟨intent, st.trace, maxTurns, true, st.lastSqlResult⟩ }
    else
      { response_text := apologyText
        sql_used := st.lastSql
        sources_used := st.retrieved
        execution_info := ⟨intent, st.trace, maxTurns, true, st.lastSqlResult⟩ }
  | none =>
    { response_text := apologyText
      sql_used := st.lastSql
      sources_used := st.retrieved
      execution_info := ⟨intent, st.trace, maxTurns, true, st.lastSqlResult⟩ }

/-- The turn recursion of `_execute_tool_loop`
(enhanced_tool_orchestrator.py:301-378): `turnsDone` counts completed turns,
`rem` the remaining budget (`turnsDone + rem = maxTurns`). -/
def loopGo (model : List MsgRec → Bool → ModelReply)
    (execTool : σ → Chars → Chars → ToolResult × σ) (intent : Chars) (force : Bool)
    (maxTurns : Nat) : Nat → Nat → LoopState σ → AgentResp
  | _, 0, st => maxTurnsExit intent maxTurns st
  | turnsDone, rem + 1, st =>
    let toolChoiceRequired := force && turnsDone = 0
    let reply := model st.msgs toolChoiceRequired
    let st1 : LoopState σ :=
      { st with msgs := st.msgs ++ [.assistant reply.content reply.toolCalls] }
    if reply.toolCalls = [] then
      { response_text := reply.content
        sql_used := st1.lastSql
        sources_used := st1.retrieved
        execution_info := ⟨intent, st1.trace, turnsDone + 1, false, st1.lastSqlResult⟩ }
    else
      match processCalls execTool intent turnsDone reply.toolCalls st1 with
      | .inl resp => resp
      | .inr st2 => loopGo model execTool intent force maxTurns (turnsDone + 1) rem st2

/-- Embedding of `_execute_tool_loop` (enhanced_tool_orchestrator.py:294-410):
run at most `maxTurns` turns from the given seed messages, with empty trace
and no SQL result. -/
def execToolLoop (model : List MsgRec → Bool → ModelReply)
    (execTool : σ → Chars → Chars → ToolResult × σ) (intent : Chars) (force : Bool)
    (msgs : List MsgRec) (maxTurns : Nat) (toolSt : σ) : AgentResp :=
  loopGo model execTool intent force maxTurns 0 maxTurns
    ⟨msgs, [], [], none, none, toolSt⟩

/-! Claim-side predicates (formalising wording of the specification, for
stating claims and counterexamples) and concrete instances used by the
witnesses. -/

/-- Whether the text contains `LIMIT` as a whole word (case-insensitively):
the natural reading of the spec's "statements lacking a LIMIT clause". -/
def hasLimitKeyword (s : Chars) : Bool := containsWord (str "LIMIT") (pyUpper s)

/-- The spec's schema allow-list `{prod, staging, intermediate}`. -/
def allowedSchemas : List Chars := [str "prod", str "staging", str "intermediate"]

/-- A schema-qualified reference at the head of `l` (word boundary before): a
word run immediately followed by a dot and a further word character; returns
the schema token and a length for non-overlapping scanning. -/
def schemaRefAt (prev : Option Char) (l : Chars) : Option (Chars × Nat) :=
  if !prev.all (fun p => !isWordChar p) then none
  else
    let run := l.takeWhile isWordChar
    if run = [] then none
    else
      let t := l.dropWhile isWordChar
      if t.head? = some '.' && (t.drop 1).head?.any isWordChar then
        some (run, run.length + 1)
      else none

/-- All schema tokens of schema-qualified references in the text. -/
def schemaRefs (s : Chars) : List Chars := findAllPrev schemaRefAt none 0 s

/-- Formalisation of the claim's "references only the allow-listed schemas
prod, staging, and intermediate". -/
def usesOnlyAllowedSchemas (s : Chars) : Bool :=
  (schemaRefs s).all (fun r => pyLower r ∈ allowedSchemas)

/-- Formalisation of the claim's "carries a LIMIT value no greater than
`m`": the statement has a `LIMIT <digits>` occurrence and the first such value
is at most `m`. -/
def carriesLimitAtMost (s : Chars) (m : Nat) : Bool :=
  match limitSearch (pyUpper s) with
  | some v => v ≤ m
  | none => false

/-- Identity continuation standing in for the unreachable remainder of
`_rewrite_sql_for_missing_columns` in closed instances. -/
def idRewriteCont : Chars → Chars → Chars := fun s _ => s

/-- Execution failure of `postgres.execute_sql` as the claim reads it: an
exception, or a result with `success == False`. -/
def execFailed : PgOutcome → Bool
  | .raises _ => true
  | .result success _ => !success

/-- Schema index for the C1 counterexample. -/
def c1Idx : SchemaIdx := [(str "public.users", [str "x", str "unlimited"])]

/-- SQL of the C1 counterexample. -/
def c1Sql : Chars := str "SELECT unlimited FROM public.users"

/-- History of the C2 scenario: one assistant turn carrying both SQL and chart
metadata. -/
def c2History : List HistMsg :=
  [⟨str "assistant",
    ⟨some (str "SELECT district, COUNT(*) FROM prod.case_occurence GROUP BY district LIMIT 500"),
     [12]⟩⟩]

/-- A completion-capability stub that classifies everything as irrelevant. -/
def contraLLM : Chars → ConversationContext → RouterResponse :=
  fun _ _ => ⟨str "irrelevant", (0.5 : ℚ), str "stub", false, none⟩

/-- Schema index for the C5 witness. -/
def c5Idx : SchemaIdx := [(str "prod.case_occurence", [str "district", str "case_id"])]

/-- SQL of the C5 witness. -/
def c5Sql : Chars :=
  str "SELECT COUNT(*) FROM prod.case_occurence WHERE district = 'X' LIMIT 10"

/-- A failing `run_sql_query` tool result (validation refusal). -/
def stubFailResult : ToolResult :=
  ⟨false, some (str "sql_validation_failed"), none, none, none, [], [], []⟩

/-- A model stub that on every turn issues exactly one `run_sql_query` call. -/
def stubModel : List MsgRec → Bool → ModelReply :=
  fun _ _ => ⟨[], [⟨str "call_1", str "run_sql_query", str "{}"⟩]⟩

/-- A tool executor whose every dispatch fails. -/
def stubFailExec : Unit → Chars → Chars → ToolResult × Unit :=
  fun s _ _ => (stubFailResult, s)

/-- Schema index for the C1 amended-claim witness. -/
def cwIdx : SchemaIdx := [(str "prod.t", [str "a"])]

/-- All-whitespace character lists (the material `str.strip` may remove). -/
def wsOnly (l : Chars) : Prop := ∀ c ∈ l, isWs c = true

/-! ### Theorems -/

/-- C2 (counterexample): for the history whose assistant turn carries
`sql_used = "SELECT district, COUNT(*) FROM prod.case_occurence GROUP BY
district LIMIT 500"` and `chart_ids_used = [12]`, extraction does NOT return
tables `["prod.case_occurence"]`, dimensions `["district"]` and chart ids
`["12"]` as the claim states. -/
theorem c2_extraction_claim_fails :
    ¬((extractConversationContext c2History).last_tables_used =
        [str "prod.case_occurence"] ∧
      (extractConversationContext c2History).last_dimensions = [str "district"] ∧
      (extractConversationContext c2History).last_chart_ids = [str "12"]) := by
  decide

/-- C2 (amended): on that history the extractor returns
`last_tables_used = ["prod.case_occurence", "prod"]` (the bare-table pattern
also captures the schema token), `last_dimensions = []` (the negated character
class of the GROUP BY pattern rejects the `d` of `district`), and
`last_chart_ids = ["12"]`. -/
theorem c2_extraction_amended :
    (extractConversationContext c2History).last_tables_used =
        [str "prod.case_occurence", str "prod"] ∧
      (extractConversationContext c2History).last_dimensions = ([] : List Chars) ∧
      (extractConversationContext c2History).last_chart_ids = [str "12"] := by
  decide

/-- C1 (counterexample): the statement `SELECT unlimited FROM public.users`
passes the whole guard pipeline and is handed to the execution capability
verbatim, although it references the non-allow-listed schema `public` and
carries no `LIMIT` value at all (the substring check is satisfied by the
column name `unlimited`, so no limit is injected and none is validated). -/
theorem c1_guard_invariant_claim_fails :
    runSqlGuarded idRewriteCont c1Idx [] c1Sql = .executed c1Sql ∧
      usesOnlyAllowedSchemas c1Sql = false ∧
      carriesLimitAtMost c1Sql config.max_limit = false := by
  decide

/-- C3 (code divergence): the heuristic fast path would classify the pure
greeting `hi` as `small_talk`, but `classify_intent` never consults it — the
classification is whatever the completion capability returns, as shown by a
stub model that classifies `hi` as `irrelevant`. -/
theorem c3_heuristic_fast_path_dead :
    (heuristicClassification (str "hi") emptyContext).map RouterResponse.intent =
        some (str "small_talk") ∧
      (classifyIntent contraLLM (str "hi") []).intent = str "irrelevant" := by
  decide

/-- C6 (counterexample): `SELECT unlimited_total FROM prod.t` is a valid
SELECT statement with no LIMIT clause (no `LIMIT` keyword occurs as a word),
yet `validate_sql` returns no corrected SQL at all — the column name
`unlimited_total` satisfies the substring check, so no default limit is
injected. -/
theorem c6_default_limit_claim_fails :
    hasLimitKeyword (str "SELECT unlimited_total FROM prod.t") = false ∧
      (validateSql (str "SELECT unlimited_total FROM prod.t")).is_valid = true ∧
      (validateSql (str "SELECT unlimited_total FROM prod.t")).corrected_sql = none := by
  decide

/-- C8 (counterexample): `SELECT a FROM de/*c*/v_x.t` validates successfully
(the deny-listed schema check runs on the raw text, where the comment splits
`dev_x.`), and its corrected SQL is `SELECT a FROM dev_x.t\nLIMIT 500`; but
re-validating that corrected statement fails, because comment removal has
revealed the deny-listed `dev_` schema pattern. -/
theorem c8_idempotence_claim_fails :
    (validateSql (str "SELECT a FROM de/*c*/v_x.t")).is_valid = true ∧
      (validateSql (str "SELECT a FROM de/*c*/v_x.t")).corrected_sql =
        some (str "SELECT a FROM dev_x.t\nLIMIT 500") ∧
      (validateSql (str "SELECT a FROM dev_x.t\nLIMIT 500")).is_valid = false := by
  decide

theorem ciPrefixDrop_sublist : ∀ {p l t : Chars}, ciPrefixDrop p l = some t →
    List.Sublist t l := by
  intro p
  induction p with
  | nil =>
    intro l t h
    simp [ciPrefixDrop] at h
    exact h ▸ List.Sublist.refl l
  | cons x ps ih =>
    intro l t h
    cases l with
    | nil => simp [ciPrefixDrop] at h
    | cons c cs =>
      simp only [ciPrefixDrop] at h
      by_cases hc : loC c = loC x
      · rw [if_pos hc] at h
        exact (ih h).trans (List.sublist_cons_self c cs)
      · rw [if_neg hc] at h
        exact absurd h (by simp)

theorem brokenFromAt_backslash {l r : Chars} (h : brokenFromAt l = some r) : '\\' ∈ l := by
  unfold brokenFromAt at h
  split at h
  · exact absurd h (by simp)
  · rename_i t hd
    by_cases hh : t.head? = some '\\'
    · have hmem : '\\' ∈ t := by
        cases t with
        | nil => simp at hh
        | cons a b =>
          simp only [List.head?_cons, Option.some.injEq] at hh
          exact hh ▸ List.mem_cons_self a b
      exact (ciPrefixDrop_sublist hd).subset hmem
    · rw [if_pos (by simpa using hh)] at h
      exact absurd h (by simp)

theorem brokenFromSearch_none {sql : Chars} (h : '\\' ∉ sql) :
    brokenFromSearch sql = none := by
  unfold brokenFromSearch
  induction sql with
  | nil => simp [searchOpt]
  | cons c rest ih =>
    unfold searchOpt
    cases hb : brokenFromAt (c :: rest) with
    | some r => exact absurd (brokenFromAt_backslash hb) h
    | none => exact ih (fun hm => h (List.mem_cons_of_mem c hm))

/-- C4: the column rewriter never rewrites.  For every SQL text containing no
literal backslash — every statement the model can realistically produce — the
initial `re.search(r"FROM\\s+([\\w\\.]+)", ...)` of
`_rewrite_sql_for_missing_columns` fails (the doubled backslashes in the raw
pattern demand a literal backslash after `FROM`), so the function returns its
input unchanged for every continuation; the table-swap and the
city→chapter→district→school→region fallback described by the spec are
unreachable. -/
theorem c4_rewrite_never_rewrites (cont : Chars → Chars → Chars) (sql : Chars)
    (h : '\\' ∉ sql) : rewriteSqlForMissingColumns cont sql = sql := by
  unfold rewriteSqlForMissingColumns
  rw [brokenFromSearch_none h]

/-- Witness for `c4_rewrite_never_rewrites`: the spec's own example shape — a
query on a missing `city` column — is returned unchanged. -/
theorem c4_rewrite_never_rewrites_witness :
    '\\' ∉ str "SELECT city FROM prod.students GROUP BY city" ∧
      rewriteSqlForMissingColumns idRewriteCont
          (str "SELECT city FROM prod.students GROUP BY city") =
        str "SELECT city FROM prod.students GROUP BY city" :=
  ⟨by decide, c4_rewrite_never_rewrites idRewriteCont _ (by decide)⟩

/-- C9: `check_table_row_count` with a non-empty table argument sends exactly
the verbatim interpolation `SELECT COUNT(*) as row_count FROM <table> LIMIT 1`
to the execution capability — for every table text, with no
`SqlSafetyGuard` validation and no distinct-value gate on the path (the
embedding of the tool takes neither) — and on any execution failure returns a
structured result with `has_data == False` and an error message instead of
raising. -/
theorem c9_row_count_tool (pg : Chars → PgOutcome) (table : Chars) (h : table ≠ []) :
    (toolCheckTableRowCount pg table).2 = some (rowCountSql table) ∧
      rowCountSql table =
        str "SELECT COUNT(*) as row_count FROM " ++ table ++ str " LIMIT 1" ∧
      (execFailed (pg (rowCountSql table)) = true →
        (toolCheckTableRowCount pg table).1.has_data = some false ∧
          ((toolCheckTableRowCount pg table).1.error).isSome = true) := by
  unfold toolCheckTableRowCount
  rw [if_neg h]
  refine ⟨?_, rfl, ?_⟩
  · cases hp : pg (rowCountSql table) with
    | raises m => simp
    | result success df =>
      cases success with
      | false => simp
      | true =>
        cases df with
        | none => simp
        | some rows =>
          cases rows with
          | nil => simp
          | cons row rows' =>
            cases hlk : row.lookup (str "row_count") <;> simp [hlk]
  · intro hfail
    cases hp : pg (rowCountSql table) with
    | raises m => simp
    | result success df =>
      rw [hp] at hfail
      cases success with
      | true => simp [execFailed] at hfail
      | false => simp

/-- Witness for `c9_row_count_tool` at a concrete failing executor. -/
theorem c9_row_count_tool_witness :
    str "prod.t" ≠ ([] : Chars) ∧
      (toolCheckTableRowCount (fun _ => PgOutcome.raises (str "connection refused"))
          (str "prod.t")).2 =
        some (rowCountSql (str "prod.t")) :=
  ⟨by decide, (c9_row_count_tool (fun _ => PgOutcome.raises (str "connection refused"))
    (str "prod.t") (by decide)).1⟩

theorem cacheAdd_mem (c : DistinctCache) (p : Chars × Chars) : p ∈ cacheAdd c p := by
  unfold cacheAdd
  split
  · assumption
  · exact List.mem_cons_self p c

theorem runSqlQueryTool_ne_mustFetch (sql : Chars) (ms : List MissingEntry) :
    runSqlQueryTool sql ≠ .mustFetch ms := by
  unfold runSqlQueryTool
  split <;> simp

theorem rewrite_id_of_no_backslash (cont : Chars → Chars → Chars) {sql : Chars}
    (h : '\\' ∉ sql) : rewriteSqlForMissingColumns cont sql = sql := by
  unfold rewriteSqlForMissingColumns
  rw [brokenFromSearch_none h]

/-- C5: the distinct-value gate.  For SQL carrying an equality filter on a
column `col` of the referenced table `tbl` (as detected by
`_check_where_clauses_need_distinct_values`), with the referenced table
present in the schema index: when the pair has not been recorded in the
distinct cache, dispatching `run_sql_query` returns the structured
`must_fetch_distinct_values` refusal naming exactly that pair instead of
executing; and after one successful `get_distinct_values` dispatch for that
pair (which records the lower-cased pair in the same orchestrator cache), the
identical SQL is no longer blocked by the gate. -/
theorem c5_distinct_gate (cont : Chars → Chars → Chars) (idx : SchemaIdx)
    (cache : DistinctCache) (sql tbl col v : Chars)
    (hpre : match fromTableSearchBroad sql with
      | some t => tableExists idx t = true
      | none => True)
    (hnb : '\\' ∉ sql)
    (hcw : checkWhere sql = some (tbl, col, v))
    (htbl : tbl ≠ []) (hcol : col ≠ [])
    (hmem : ((getTableColumns idx tbl).map pyLower).contains (pyLower col) = true)
    (hnc : cache.contains (pyLower tbl, pyLower col) = false) :
    runSqlGuarded cont idx cache sql = .mustFetch [⟨tbl, col, false, []⟩] ∧
      ∀ (vals : List Chars) (lim : Nat),
        (pyLower tbl, pyLower col) ∈
            (execDistinctArm (fun _ _ _ => .ok vals) cache tbl col lim).2 ∧
          ∀ ms, runSqlGuarded cont idx
              (execDistinctArm (fun _ _ _ => .ok vals) cache tbl col lim).2 sql ≠
            .mustFetch ms := by
  have hrw : rewriteSqlForMissingColumns cont sql = sql :=
    rewrite_id_of_no_backslash cont hnb
  have hmd1 : missingDistinct idx cache sql = [⟨tbl, col, false, []⟩] := by
    simp only [missingDistinct, hcw]
    rw [if_pos ⟨htbl, hcol⟩]
    simp only [Bool.not_eq_true']
    rw [if_neg (fun hf => Bool.noConfusion (hmem.symm.trans hf)), if_pos hnc]
  constructor
  · cases hft : fromTableSearchBroad sql with
    | none =>
      simp only [runSqlGuarded, hft]
      unfold runSqlAfterPrecheck
      rw [hrw, hmd1]
    | some t =>
      have hpre' : tableExists idx t = true := by rw [hft] at hpre; exact hpre
      simp only [runSqlGuarded, hft]
      rw [if_pos hpre']
      unfold runSqlAfterPrecheck
      rw [hrw, hmd1]
  · intro vals lim
    have hc2 : (execDistinctArm (fun _ _ _ => .ok vals) cache tbl col lim).2 =
        cacheAdd cache (pyLower tbl, pyLower col) := by
      unfold execDistinctArm toolGetDistinctValues
      simp [truthyOpt, htbl, hcol]
    refine ⟨hc2 ▸ cacheAdd_mem cache _, ?_⟩
    intro ms
    have hmem2 : (pyLower tbl, pyLower col) ∈
        (execDistinctArm (fun _ _ _ => .ok vals) cache tbl col lim).2 := by
      rw [hc2]
      exact cacheAdd_mem cache _
    have hcont2 : ((execDistinctArm (fun _ _ _ => .ok vals) cache tbl col lim).2).contains
        (pyLower tbl, pyLower col) = true := List.elem_eq_true_of_mem hmem2
    have hmd2 : missingDistinct idx
        (execDistinctArm (fun _ _ _ => .ok vals) cache tbl col lim).2 sql = [] := by
      simp only [missingDistinct, hcw]
      rw [if_pos ⟨htbl, hcol⟩]
      simp only [Bool.not_eq_true']
      rw [if_neg (fun hf => Bool.noConfusion (hmem.symm.trans hf))]
      rw [if_neg (fun hf => Bool.noConfusion (hcont2.symm.trans hf))]
    cases hft : fromTableSearchBroad sql with
    | none =>
      simp only [runSqlGuarded, hft]
      unfold runSqlAfterPrecheck
      rw [hrw, hmd2]
      exact runSqlQueryTool_ne_mustFetch sql ms
    | some t =>
      have hpre' : tableExists idx t = true := by rw [hft] at hpre; exact hpre
      simp only [runSqlGuarded, hft]
      rw [if_pos hpre']
      unfold runSqlAfterPrecheck
      rw [hrw, hmd2]
      exact runSqlQueryTool_ne_mustFetch sql ms

/-- Witness for `c5_distinct_gate`: the spec's example — a filter on
`district` against `prod.case_occurence` — is blocked on a fresh cache and no
longer gate-blocked after one successful distinct-value fetch for the pair. -/
theorem c5_distinct_gate_witness :
    runSqlGuarded idRewriteCont c5Idx [] c5Sql =
        .mustFetch [⟨str "prod.case_occurence", str "district", false, []⟩] ∧
      ∀ ms, runSqlGuarded idRewriteCont c5Idx
          (execDistinctArm (fun _ _ _ => .ok [str "Adyar"]) [] (str "prod.case_occurence")
            (str "district") 50).2 c5Sql ≠ .mustFetch ms := by
  have h := c5_distinct_gate idRewriteCont c5Idx [] c5Sql (str "prod.case_occurence")
    (str "district") (str "X")
    ((by decide : tableExists c5Idx (str "prod.case_occurence") = true) : _)
    (by decide) (by decide) (by decide) (by decide) (by decide) (by decide)
  exact ⟨h.1, fun ms => (h.2 [str "Adyar"] 50).2 ms⟩

/-- No recorded SQL snapshot is successful. -/
def notSuccSnap (o : Option SqlResSnapshot) : Prop :=
  ∀ snap, o = some snap → snap.success = false

theorem processCalls_inl {σ : Type} (execTool : σ → Chars → Chars → ToolResult × σ)
    (intent : Chars) (turn : Nat) :
    ∀ (calls : List ToolCallReq) (st : LoopState σ) (resp : AgentResp),
      processCalls execTool intent turn calls st = .inl resp →
      resp.execution_info.turns = turn + 1 ∧
        resp.execution_info.max_turns_reached = false := by
  intro calls
  induction calls with
  | nil => intro st resp h; simp [processCalls] at h
  | cons c rest ih =>
    intro st resp h
    simp only [processCalls] at h
    split at h
    · split at h
      · cases h
        exact ⟨rfl, rfl⟩
      · exact ih _ _ h
    · exact ih _ _ h

theorem processCalls_inr {σ : Type} (execTool : σ → Chars → Chars → ToolResult × σ)
    (intent : Chars) (turn : Nat) :
    ∀ (calls : List ToolCallReq) (st st' : LoopState σ),
      processCalls execTool intent turn calls st = .inr st' →
      notSuccSnap st.lastSqlResult → notSuccSnap st'.lastSqlResult := by
  intro calls
  induction calls with
  | nil =>
    intro st st' h hinv
    simp only [processCalls] at h
    cases h
    exact hinv
  | cons c rest ih =>
    intro st st' h hinv
    simp only [processCalls] at h
    split at h
    · split at h
      · exact absurd h (by simp)
      · rename_i hns
        refine ih _ _ h ?_
        intro snap hsnap
        simp only [Option.some.injEq] at hsnap
        rw [← hsnap]
        simpa [snapshotOf] using hns
    · refine ih _ _ h ?_
      intro snap hsnap
      apply hinv snap
      rw [← hsnap]
      split <;> rfl

theorem loopGo_turns {σ : Type} (model : List MsgRec → Bool → ModelReply)
    (execTool : σ → Chars → Chars → ToolResult × σ) (intent : Chars) (force : Bool)
    (maxTurns : Nat) :
    ∀ (rem turnsDone : Nat) (st : LoopState σ), turnsDone + rem = maxTurns →
      (loopGo model execTool intent force maxTurns turnsDone rem st).execution_info.turns ≤
        maxTurns := by
  intro rem
  induction rem with
  | zero =>
    intro turnsDone st _
    simp only [loopGo]
    unfold maxTurnsExit
    split
    · split <;> simp
    · simp
  | succ rem ih =>
    intro turnsDone st hsum
    simp only [loopGo]
    split
    · simp
      omega
    · split
      · rename_i resp hresp
        have := processCalls_inl execTool intent turnsDone _ _ _ hresp
        rw [this.1]
        omega
      · exact ih (turnsDone + 1) _ (by omega)

theorem loopGo_exhaust {σ : Type} (model : List MsgRec → Bool → ModelReply)
    (execTool : σ → Chars → Chars → ToolResult × σ) (intent : Chars) (force : Bool)
    (maxTurns : Nat) :
    ∀ (rem turnsDone : Nat) (st : LoopState σ), notSuccSnap st.lastSqlResult →
      (loopGo model execTool intent force maxTurns turnsDone rem
          st).execution_info.max_turns_reached = true →
      (loopGo model execTool intent force maxTurns turnsDone rem st).response_text =
          apologyText ∧
        notSuccSnap (loopGo model execTool intent force maxTurns turnsDone rem
          st).execution_info.sql_result := by
  intro rem
  induction rem with
  | zero =>
    intro turnsDone st hinv _
    simp only [loopGo]
    unfold maxTurnsExit
    split
    · rename_i snap hsnap
      rw [if_neg (by simp [hinv snap hsnap])]
      exact ⟨rfl, by simpa [hsnap] using hinv⟩
    · rename_i hsnap
      refine ⟨rfl, ?_⟩
      intro s hs
      simp only at hs
      rw [hsnap] at hs
      exact absurd hs (by simp)
  | succ rem ih =>
    intro turnsDone st hinv hmax
    simp only [loopGo] at hmax ⊢
    split at hmax
    · simp at hmax
    · rename_i hne
      rw [if_neg hne]
      split at hmax
      · rename_i resp hresp
        have := processCalls_inl execTool intent turnsDone _ _ _ hresp
        rw [this.2] at hmax
        exact absurd hmax (by simp)
      · rename_i st2 hst2
        exact ih (turnsDone + 1) st2
          (processCalls_inr execTool intent turnsDone _ _ _ hst2 hinv) hmax

/-- C7: the orchestration loop always returns within its turn budget — for
every model behaviour, tool executor, intent, seed messages and state, the
reported turn count is at most `maxTurns`; and concretely, with a 2-turn
budget and a model stub that only ever issues a failing `run_sql_query` call,
the loop returns the terminal "couldn't get enough data" apology after
exactly 2 turns with the exhaustion flag set. -/
theorem c7_loop_budget :
    (∀ (σ : Type) (model : List MsgRec → Bool → ModelReply)
      (execTool : σ → Chars → Chars → ToolResult × σ) (intent : Chars) (force : Bool)
      (msgs : List MsgRec) (maxTurns : Nat) (s0 : σ),
      (execToolLoop model execTool intent force msgs maxTurns
          s0).execution_info.turns ≤ maxTurns) ∧
      (execToolLoop stubModel stubFailExec (str "query_with_sql") true
          [MsgRec.user (str "how many cases?")] 2 ()).response_text = apologyText ∧
      (execToolLoop stubModel stubFailExec (str "query_with_sql") true
          [MsgRec.user (str "how many cases?")] 2 ()).execution_info.turns = 2 ∧
      (execToolLoop stubModel stubFailExec (str "query_with_sql") true
          [MsgRec.user (str "how many cases?")] 2
          ()).execution_info.max_turns_reached = true := by
  refine ⟨?_, by decide, by decide, by decide⟩
  intro σ model execTool intent force msgs maxTurns s0
  exact loopGo_turns model execTool intent force maxTurns maxTurns 0 _ (by omega)

/-- C10: whenever the loop exits through the max-turns path, no successful SQL
result exists in its state — a successful `run_sql_query` dispatch returns
within its own turn — so the "best successful query result" branch of the
exhaustion exit is unreachable and exhaustion always produces the fixed
apology text. -/
theorem c10_exhaustion_uniform {σ : Type} (model : List MsgRec → Bool → ModelReply)
    (execTool : σ → Chars → Chars → ToolResult × σ) (intent : Chars) (force : Bool)
    (msgs : List MsgRec) (maxTurns : Nat) (s0 : σ)
    (hmax : (execToolLoop model execTool intent force msgs maxTurns
        s0).execution_info.max_turns_reached = true) :
    (execToolLoop model execTool intent force msgs maxTurns s0).response_text =
        apologyText ∧
      ∀ snap, (execToolLoop model execTool intent force msgs maxTurns
          s0).execution_info.sql_result = some snap → snap.success = false := by
  have h := loopGo_exhaust model execTool intent force maxTurns maxTurns 0
    ⟨msgs, [], [], none, none, s0⟩ (fun snap hsnap => by simp at hsnap) hmax
  exact ⟨h.1, h.2⟩

/-- Witness for `c10_exhaustion_uniform` at the failing stub scenario. -/
theorem c10_exhaustion_uniform_witness :
    (execToolLoop stubModel stubFailExec (str "follow_up_sql") false
        [MsgRec.user (str "split by district")] 1 ()).response_text = apologyText :=
  (c10_exhaustion_uniform stubModel stubFailExec (str "follow_up_sql") false
    [MsgRec.user (str "split by district")] 1 () (by decide)).1

theorem if_cons_nil {α : Type} {P : Prop} [Decidable P] {x : α}
    (h : (if P then [x] else []) = []) : ¬P := by
  intro hp
  rw [if_pos hp] at h
  exact absurd h (by simp)

theorem limitSearch_some_contains : ∀ {l : Chars} {v : Nat}, limitSearch l = some v →
    containsSub (str "LIMIT") l = true := by
  intro l
  induction l with
  | nil => intro v h; simp [limitSearch] at h
  | cons c rest ih =>
    intro v h
    simp only [limitSearch] at h
    split at h
    · rename_i v0 ht
      unfold limitTryAt at ht
      split at ht
      · rename_i hpre
        simp [containsSub, hpre]
      · exact absurd ht (by simp)
    · rename_i ht
      simp [containsSub, ih h]

theorem runSqlQueryTool_executed {sql final : Chars}
    (h : runSqlQueryTool sql = .executed final) :
    (validateSql sql).is_valid = true ∧
      final = (validateSql sql).corrected_sql.getD sql := by
  unfold runSqlQueryTool at h
  split at h
  · exact absurd h (by simp)
  · rename_i hval
    simp only [Bool.not_eq_true', Bool.not_eq_false] at hval
    injection h with hf
    exact ⟨hval, hf.symm⟩

theorem runSqlGuarded_executed {cont : Chars → Chars → Chars} {idx : SchemaIdx}
    {cache : DistinctCache} {sql final : Chars}
    (h : runSqlGuarded cont idx cache sql = .executed final) :
    (validateSql (rewriteSqlForMissingColumns cont sql)).is_valid = true ∧
      final = (validateSql (rewriteSqlForMissingColumns cont sql)).corrected_sql.getD
        (rewriteSqlForMissingColumns cont sql) := by
  unfold runSqlGuarded at h
  have hafter : ∀ (hh : runSqlAfterPrecheck cont idx cache sql = .executed final),
      (validateSql (rewriteSqlForMissingColumns cont sql)).is_valid = true ∧
        final = (validateSql (rewriteSqlForMissingColumns cont sql)).corrected_sql.getD
          (rewriteSqlForMissingColumns cont sql) := by
    intro hh
    unfold runSqlAfterPrecheck at hh
    split at hh
    · exact runSqlQueryTool_executed hh
    · exact absurd hh (by simp)
  split at h
  · split at h
    · exact hafter h
    · exact absurd h (by simp)
  · exact hafter h

/-- C1 (amended): every SQL statement handed to the query-execution capability
by the `run_sql_query` tool is the validator-approved corrected form of the
(rewritten) input, whose comment-stripped text starts with SELECT, contains no
forbidden keyword as a whole word and has at most a trailing semicolon; the
first `LIMIT <digits>` occurrence of the sanitized text, when one exists, is
at most the configured `max_limit` (no LIMIT is guaranteed when the text
merely contains the letters `LIMIT`); and the text matches none of the three
deny-listed schema patterns — the guard enforces a deny-list, not the positive
allow-list {prod, staging, intermediate} of the claim. -/
theorem c1_guard_invariant_amended (cont : Chars → Chars → Chars) (idx : SchemaIdx)
    (cache : DistinctCache) (sql final : Chars)
    (h : runSqlGuarded cont idx cache sql = .executed final) :
    (validateSql (rewriteSqlForMissingColumns cont sql)).is_valid = true ∧
      final = (validateSql (rewriteSqlForMissingColumns cont sql)).corrected_sql.getD
        (rewriteSqlForMissingColumns cont sql) ∧
      (str "SELECT").isPrefixOf
          (pyUpper (pyStrip (stripComments (rewriteSqlForMissingColumns cont sql)))) =
        true ∧
      (∀ k ∈ forbiddenKeywords,
        containsWord k
            (pyUpper (pyStrip (stripComments (rewriteSqlForMissingColumns cont sql)))) =
          false) ∧
      ';' ∉ rstripSemi (stripComments (rewriteSqlForMissingColumns cont sql)) ∧
      (∀ v, limitSearch (pyUpper (sanStripped (rewriteSqlForMissingColumns cont sql))) =
          some v → v ≤ config.max_limit) ∧
      devSchemaMatch (pyUpper (rewriteSqlForMissingColumns cont sql)) = false ∧
      airbyteMatch (pyUpper (rewriteSqlForMissingColumns cont sql)) = false ∧
      ecoMatch (pyUpper (rewriteSqlForMissingColumns cont sql)) = false := by
  obtain ⟨hvalid, hfinal⟩ := runSqlGuarded_executed h
  refine ⟨hvalid, hfinal, ?_⟩
  have herr : validateErrors (rewriteSqlForMissingColumns cont sql) = [] := by
    have := hvalid
    unfold validateSql at this
    simpa using this
  rw [validateErrors] at herr
  simp only [List.append_eq_nil] at herr
  obtain ⟨⟨⟨⟨h1, h2⟩, h3⟩, h4⟩, h8⟩ := herr
  refine ⟨?_, ?_, ?_, ?_, ?_, ?_, ?_⟩
  · unfold selectStartErrors at h1
    by_cases hp : (str "SELECT").isPrefixOf
        (pyUpper (pyStrip (stripComments (rewriteSqlForMissingColumns cont sql)))) = true
    · exact hp
    · rw [if_neg (by simpa using hp)] at h1
      exact absurd h1 (by simp)
  · intro k hk
    unfold keywordErrors at h2
    rw [List.map_eq_nil_iff] at h2
    rw [List.filter_eq_nil_iff] at h2
    simpa using h2 k hk
  · unfold multiStmtErrors at h3
    exact if_cons_nil h3
  · intro v hv
    unfold limitErrors at h4
    by_cases hnl : noLimitFlag (rewriteSqlForMissingColumns cont sql) = true
    · exfalso
      have hcon := limitSearch_some_contains hv
      unfold noLimitFlag at hnl
      rw [Bool.not_eq_true'] at hnl
      exact Bool.noConfusion (hnl.symm.trans hcon)
    · rw [if_neg (by simpa using hnl)] at h4
      rw [hv] at h4
      have h4' : (if v > config.max_limit then
          [str "LIMIT " ++ natChars v ++ str " exceeds maximum allowed " ++
            natChars config.max_limit] else ([] : List Chars)) = [] := h4
      by_contra hgt
      rw [if_pos (by omega)] at h4'
      exact absurd h4' (by simp)
  · unfold forbiddenSchemaErrors at h8
    simp only [List.append_eq_nil] at h8
    simpa using if_cons_nil h8.1.1
  · unfold forbiddenSchemaErrors at h8
    simp only [List.append_eq_nil] at h8
    simpa using if_cons_nil h8.1.2
  · unfold forbiddenSchemaErrors at h8
    simp only [List.append_eq_nil] at h8
    simpa using if_cons_nil h8.2

/-- Witness for `c1_guard_invariant_amended` at a benign executed statement. -/
theorem c1_guard_invariant_amended_witness :
    runSqlGuarded idRewriteCont cwIdx [] (str "SELECT a FROM prod.t") =
        .executed (str "SELECT a FROM prod.t\nLIMIT 500") ∧
      (validateSql (rewriteSqlForMissingColumns idRewriteCont
          (str "SELECT a FROM prod.t"))).is_valid = true :=
  ⟨by decide,
    (c1_guard_invariant_amended idRewriteCont cwIdx [] (str "SELECT a FROM prod.t")
      (str "SELECT a FROM prod.t\nLIMIT 500") (by decide)).1⟩

/-! ### Library of list lemmas about the string helpers -/

theorem dropWhile_head_false (p : Char → Bool) :
    ∀ (l : Chars) (c : Char) (t : Chars), l.dropWhile p = c :: t → p c = false := by
  intro l
  induction l with
  | nil => intro c t h; exact absurd h (by simp)
  | cons a l ih =>
    intro c t h
    rw [List.dropWhile_cons] at h
    split at h
    · exact ih c t h
    · rename_i hp
      injection h with h1 _
      subst h1
      exact Bool.eq_false_iff.mpr hp

theorem dropWhile_headq_false (p : Char → Bool) (l : Chars) (c : Char)
    (h : (l.dropWhile p).head? = some c) : p c = false := by
  cases hd : l.dropWhile p with
  | nil => rw [hd] at h; cases h
  | cons a t =>
    rw [hd] at h
    injection h with h
    subst h
    exact dropWhile_head_false p l _ t hd

theorem wsOnly_append {a b : Chars} (ha : wsOnly a) (hb : wsOnly b) : wsOnly (a ++ b) := by
  intro c hc
  rcases List.mem_append.mp hc with h | h
  exacts [ha c h, hb c h]

theorem pyLstrip_eq_self {l : Chars} (h : ∀ c, l.head? = some c → isWs c = false) :
    pyLstrip l = l := by
  cases l with
  | nil => rfl
  | cons c t => simp [pyLstrip, List.dropWhile_cons, h c rfl]

theorem pyRstrip_eq_self {l : Chars} (h : ∀ c, l.getLast? = some c → isWs c = false) :
    pyRstrip l = l := by
  unfold pyRstrip
  have hrev : l.reverse.dropWhile isWs = l.reverse := by
    cases hr : l.reverse with
    | nil => rfl
    | cons c t =>
      have hc : isWs c = false := by
        refine h c ?_
        rw [← List.head?_reverse, hr]
        rfl
      simp [List.dropWhile_cons, hc]
  rw [hrev, List.reverse_reverse]

theorem rstripSemi_eq_self {l : Chars} (h : ∀ c, l.getLast? = some c → c ≠ ';') :
    rstripSemi l = l := by
  unfold rstripSemi
  have hrev : l.reverse.dropWhile (· = ';') = l.reverse := by
    cases hr : l.reverse with
    | nil => rfl
    | cons c t =>
      have hc : c ≠ ';' := by
        refine h c ?_
        rw [← List.head?_reverse, hr]
        rfl
      simp [List.dropWhile_cons, hc]
  rw [hrev, List.reverse_reverse]

theorem pyRstrip_eq_nil_iff {l : Chars} : pyRstrip l = [] ↔ wsOnly l := by
  unfold pyRstrip
  constructor
  · intro h c hc
    have h2 : l.reverse.dropWhile isWs = [] := by
      have := congrArg List.reverse h
      simpa using this
    exact List.dropWhile_eq_nil_iff.mp h2 c (List.mem_reverse.mpr hc)
  · intro h
    have h2 : l.reverse.dropWhile isWs = [] :=
      List.dropWhile_eq_nil_iff.mpr (fun c hc => h c (List.mem_reverse.mp hc))
    simp [h2]

theorem pyLstrip_eq_nil_iff {l : Chars} : pyLstrip l = [] ↔ wsOnly l := by
  simp [pyLstrip, wsOnly, List.dropWhile_eq_nil_iff]

theorem pyRstrip_decomp (l : Chars) : ∃ b, wsOnly b ∧ l = pyRstrip l ++ b := by
  refine ⟨(l.reverse.takeWhile isWs).reverse,
    fun c hc => List.mem_takeWhile_imp (List.mem_reverse.mp hc), ?_⟩
  conv_lhs => rw [← List.reverse_reverse l, ← List.takeWhile_append_dropWhile isWs l.reverse]
  rw [List.reverse_append]
  rfl

theorem pyLstrip_decomp (l : Chars) : ∃ a, wsOnly a ∧ l = a ++ pyLstrip l :=
  ⟨l.takeWhile isWs, fun _ hc => List.mem_takeWhile_imp hc,
    (List.takeWhile_append_dropWhile _ _).symm⟩

theorem pyStrip_decomp (l : Chars) : ∃ a b, wsOnly a ∧ wsOnly b ∧ l = a ++ pyStrip l ++ b := by
  obtain ⟨b, hb, h1⟩ := pyRstrip_decomp l
  obtain ⟨a, ha, h2⟩ := pyLstrip_decomp (pyRstrip l)
  refine ⟨a, b, ha, hb, ?_⟩
  conv_lhs => rw [h1, h2]
  rfl

theorem pyStrip_head_not_ws {l : Chars} {c : Char} {t : Chars} (h : pyStrip l = c :: t) :
    isWs c = false :=
  dropWhile_head_false isWs (pyRstrip l) c t h

theorem pyStrip_getLast_not_ws {l : Chars} {c : Char} (h : (pyStrip l).getLast? = some c) :
    isWs c = false := by
  have h' : ((pyRstrip l).dropWhile isWs).getLast? = some c := h
  have hm : (pyRstrip l).getLast? = some c := by
    have hsplit := congrArg List.getLast? (List.takeWhile_append_dropWhile isWs (pyRstrip l))
    rw [List.getLast?_append, h'] at hsplit
    have h2 : some c = (pyRstrip l).getLast? := by simpa [Option.or] using hsplit
    exact h2.symm
  have hrev : (l.reverse.dropWhile isWs).head? = some c := by
    have : ((l.reverse.dropWhile isWs).reverse).getLast? = some c := hm
    rwa [List.getLast?_reverse] at this
  exact dropWhile_headq_false isWs l.reverse c hrev

theorem pyStrip_eq_self {l : Chars} (hh : ∀ c, l.head? = some c → isWs c = false)
    (hl : ∀ c, l.getLast? = some c → isWs c = false) : pyStrip l = l := by
  unfold pyStrip
  rw [pyRstrip_eq_self hl, pyLstrip_eq_self hh]

theorem pyStrip_idem (l : Chars) : pyStrip (pyStrip l) = pyStrip l := by
  apply pyStrip_eq_self
  · intro c hc
    cases hps : pyStrip l with
    | nil => rw [hps] at hc; cases hc
    | cons a t =>
      rw [hps] at hc
      injection hc with hc
      subst hc
      exact pyStrip_head_not_ws hps
  · intro c hc
    exact pyStrip_getLast_not_ws hc

theorem pyRstrip_append_ws {b : Chars} (hb : wsOnly b) (x : Chars) :
    pyRstrip (x ++ b) = pyRstrip x := by
  unfold pyRstrip
  rw [List.reverse_append, List.dropWhile_append]
  have h2 : b.reverse.dropWhile isWs = [] :=
    List.dropWhile_eq_nil_iff.mpr (fun c hc => hb c (List.mem_reverse.mp hc))
  simp [h2]

theorem pyRstrip_append_of_ne_nil {u : Chars} (h : pyRstrip u ≠ []) (a : Chars) :
    pyRstrip (a ++ u) = a ++ pyRstrip u := by
  unfold pyRstrip at *
  rw [List.reverse_append, List.dropWhile_append]
  have hne : u.reverse.dropWhile isWs ≠ [] := by
    intro hnil
    exact h (by rw [hnil]; rfl)
  rw [if_neg (by simpa [List.isEmpty_iff] using hne), List.reverse_append, List.reverse_reverse]

theorem pyLstrip_append_ws {a : Chars} (ha : wsOnly a) (u : Chars) :
    pyLstrip (a ++ u) = pyLstrip u := by
  unfold pyLstrip
  rw [List.dropWhile_append]
  have h2 : a.dropWhile isWs = [] := List.dropWhile_eq_nil_iff.mpr ha
  simp [h2]

theorem pyStrip_ws_front {a : Chars} (ha : wsOnly a) (u : Chars) :
    pyStrip (a ++ u) = pyStrip u := by
  unfold pyStrip
  by_cases h : pyRstrip u = []
  · have h2 : pyRstrip (a ++ u) = [] := by
      rw [pyRstrip_eq_nil_iff] at h ⊢
      intro c hc
      rcases List.mem_append.mp hc with h' | h'
      exacts [ha c h', h c h']
    rw [h2, h]
  · rw [pyRstrip_append_of_ne_nil h, pyLstrip_append_ws ha]

theorem pyStrip_ws_back {b : Chars} (hb : wsOnly b) (u : Chars) :
    pyStrip (u ++ b) = pyStrip u := by
  unfold pyStrip
  rw [pyRstrip_append_ws hb]

theorem pyStrip_ws_wrap {a b : Chars} (ha : wsOnly a) (hb : wsOnly b) (u : Chars) :
    pyStrip (a ++ u ++ b) = pyStrip u := by
  rw [List.append_assoc, pyStrip_ws_front ha, pyStrip_ws_back hb]

theorem pyRstrip_sublist (l : Chars) : List.Sublist (pyRstrip l) l := by
  have h := (List.dropWhile_sublist (l := l.reverse) isWs).reverse
  simpa [pyRstrip] using h

theorem pyStrip_sublist (l : Chars) : List.Sublist (pyStrip l) l :=
  List.Sublist.trans (List.dropWhile_sublist _) (pyRstrip_sublist l)

theorem pyStrip_ne_nil_of_mem {l : Chars} {c : Char} (hc : c ∈ l) (hws : isWs c = false) :
    pyStrip l ≠ [] := by
  intro h
  have h1 : wsOnly (pyRstrip l) := pyLstrip_eq_nil_iff.mp h
  obtain ⟨b, hb, hdec⟩ := pyRstrip_decomp l
  have h2 : isWs c = true := by
    rw [hdec] at hc
    rcases List.mem_append.mp hc with h' | h'
    exacts [h1 c h', hb c h']
  rw [hws] at h2
  cases h2
theorem prefix_append_cases :
    ∀ (pat a : Chars) {b : Chars}, pat.isPrefixOf (a ++ b) = true →
      pat.isPrefixOf a = true ∨ ∃ c, b.head? = some c ∧ c ∈ pat := by
  intro pat
  induction pat with
  | nil => intro a b _; left; simp [List.isPrefixOf]
  | cons p ps ih =>
    intro a b h
    cases a with
    | nil =>
      right
      cases b with
      | nil => simp [List.isPrefixOf] at h
      | cons c t =>
        simp [List.isPrefixOf] at h
        exact ⟨c, rfl, by simp [h.1]⟩
    | cons x a' =>
      rw [List.cons_append] at h
      simp only [List.isPrefixOf, Bool.and_eq_true, beq_iff_eq] at h
      rcases ih a' h.2 with h' | ⟨c, hc1, hc2⟩
      · left; simp [List.isPrefixOf, h.1, h']
      · right; exact ⟨c, hc1, List.mem_cons_of_mem _ hc2⟩

theorem isPrefixOf_stable (pat : Chars) {b : Chars} (x : Char) (a' : Chars)
    (hb : ∀ c, b.head? = some c → c ∉ pat) :
    pat.isPrefixOf ((x :: a') ++ b) = pat.isPrefixOf (x :: a') := by
  cases hpp : pat.isPrefixOf (x :: a') with
  | true =>
    rw [ List.isPrefixOf_iff_prefix] at hpp
    rw [ List.isPrefixOf_iff_prefix]
    exact hpp.trans (List.prefix_append (x :: a') b)
  | false =>
    cases hq : pat.isPrefixOf ((x :: a') ++ b) with
    | false => rfl
    | true =>
      exfalso
      rcases prefix_append_cases pat (x :: a') hq with h' | ⟨c, hc1, hc2⟩
      · rw [h'] at hpp; cases hpp
      · exact hb c hc1 hc2

theorem containsSub_of_suffix {pat b : Chars} (h : containsSub pat b = true) (a : Chars) :
    containsSub pat (a ++ b) = true := by
  induction a with
  | nil => exact h
  | cons c a ih => simp [containsSub, ih]

theorem containsSub_subset {pat l : Chars} (h : containsSub pat l = true) :
    ∀ c ∈ pat, c ∈ l := by
  induction l with
  | nil =>
    intro c hc
    simp only [containsSub] at h
    rw [ List.isPrefixOf_iff_prefix] at h
    rw [List.prefix_nil.mp h] at hc
    cases hc
  | cons x t ih =>
    intro c hc
    simp only [containsSub, Bool.or_eq_true] at h
    rcases h with h | h
    · rw [ List.isPrefixOf_iff_prefix] at h
      exact h.subset hc
    · exact List.mem_cons_of_mem _ (ih h c hc)

theorem containsSub_append_split {pat : Chars} (hpat : pat ≠ []) {b : Chars}
    (hb : ∀ c, b.head? = some c → c ∉ pat) (a : Chars) :
    containsSub pat (a ++ b) = (containsSub pat a || containsSub pat b) := by
  induction a with
  | nil =>
    cases pat with
    | nil => exact absurd rfl hpat
    | cons p ps => simp [containsSub, List.isPrefixOf]
  | cons x a' ih =>
    rw [List.cons_append, containsSub, containsSub, ih, ← Bool.or_assoc]
    rw [show x :: (a' ++ b) = (x :: a') ++ b from rfl, isPrefixOf_stable pat x a' hb]

theorem occCount_eq_zero {pat l : Chars} (h : containsSub pat l = false) :
    occCount pat l = 0 := by
  induction l with
  | nil =>
    simp only [containsSub] at h
    simp [occCount, h]
  | cons c t ih =>
    simp only [containsSub, Bool.or_eq_false_iff] at h
    simp [occCount, h.1, ih h.2]

theorem occCount_append_split {pat : Chars} (hpat : pat ≠ []) {b : Chars}
    (hb : ∀ c, b.head? = some c → c ∉ pat) (a : Chars) :
    occCount pat (a ++ b) = occCount pat a + occCount pat b := by
  induction a with
  | nil =>
    cases pat with
    | nil => exact absurd rfl hpat
    | cons p ps => simp [occCount, List.isPrefixOf]
  | cons x a' ih =>
    rw [List.cons_append, occCount, occCount, ih, ← Nat.add_assoc]
    rw [show x :: (a' ++ b) = (x :: a') ++ b from rfl, isPrefixOf_stable pat x a' hb]

theorem limitSearch_append {a b : Chars} (ha : containsSub (str "LIMIT") a = false)
    (hb : b.head? = some '\n') : limitSearch (a ++ b) = limitSearch b := by
  induction a with
  | nil => rfl
  | cons x a' ih =>
    simp only [containsSub, Bool.or_eq_false_iff] at ha
    rw [List.cons_append, limitSearch]
    have hbpat : ∀ c, b.head? = some c → c ∉ str "LIMIT" := by
      intro c hc1
      rw [hb] at hc1
      injection hc1 with hc1
      subst hc1
      decide
    have hpref : (str "LIMIT").isPrefixOf (x :: (a' ++ b)) = false := by
      rw [show x :: (a' ++ b) = (x :: a') ++ b from rfl,
        isPrefixOf_stable (str "LIMIT") x a' hbpat]
      exact ha.1
    have htry : limitTryAt (x :: (a' ++ b)) = none := by
      simp [limitTryAt, hpref]
    rw [htry]
    exact ih ha.2

theorem pyUpper_append (a b : Chars) : pyUpper (a ++ b) = pyUpper a ++ pyUpper b :=
  List.map_append upC a b

theorem hasClose_false_of_no_slash {b : Chars} (hb : '/' ∉ b) : hasClose b = false := by
  cases hq : hasClose b with
  | false => rfl
  | true => exact absurd (containsSub_subset hq '/' (by decide)) hb

theorem hasClose_append {b : Chars} (hb1 : '/' ∉ b) (hb2 : '*' ∉ b) (x : Chars) :
    hasClose (x ++ b) = hasClose x := by
  unfold hasClose
  rw [containsSub_append_split (by decide) ?hd x]
  case hd =>
    intro c hc1 hc2
    have hcb : c ∈ b := List.mem_of_mem_head? (by rw [hc1]; rfl)
    rw [show str "*/" = ['*', '/'] by decide] at hc2
    rcases List.mem_cons.mp hc2 with h | h
    · subst h; exact hb2 hcb
    · rcases List.mem_cons.mp h with h | h
      · subst h; exact hb1 hcb
      · cases h
  rw [show containsSub (str "*/") b = hasClose b from rfl, hasClose_false_of_no_slash hb1,
    Bool.or_false]
theorem blockGo_out_id : ∀ {l : Chars}, '/' ∉ l → blockGo .out l = l := by
  intro l
  induction l with
  | nil => intro _; rfl
  | cons c t ih =>
    intro h
    have hc : c ≠ '/' := fun he => h (he ▸ List.mem_cons_self c t)
    have ht : '/' ∉ t := fun hm => h (List.mem_cons_of_mem _ hm)
    simp [blockGo, hc, ih ht]

theorem lineGo_out_id : ∀ {l : Chars}, '-' ∉ l → lineGo .out l = l := by
  intro l
  induction l with
  | nil => intro _; rfl
  | cons c t ih =>
    intro h
    have hc : c ≠ '-' := fun he => h (he ▸ List.mem_cons_self c t)
    have ht : '-' ∉ t := fun hm => h (List.mem_cons_of_mem _ hm)
    simp [lineGo, hc, ih ht]

theorem blockGo_sublists : ∀ l : Chars,
    List.Sublist (blockGo .out l) l ∧ List.Sublist (blockGo .outSlash l) ('/' :: l) ∧
      List.Sublist (blockGo .ins l) l ∧ List.Sublist (blockGo .insStar l) l := by
  intro l
  induction l with
  | nil =>
    exact ⟨List.nil_sublist _, List.Sublist.refl _, List.nil_sublist _, List.nil_sublist _⟩
  | cons c t ih =>
    obtain ⟨ih1, ih2, ih3, ih4⟩ := ih
    refine ⟨?_, ?_, ?_, ?_⟩
    · by_cases hc : c = '/'
      · subst hc; simpa [blockGo] using ih2
      · simpa [blockGo, hc] using List.Sublist.cons₂ c ih1
    · by_cases hc : c = '/'
      · subst hc; simpa [blockGo] using List.Sublist.cons₂ '/' ih2
      · by_cases hc2 : c = '*'
        · subst hc2
          by_cases hcl : hasClose t
          · simpa [blockGo, hcl] using
              List.Sublist.cons '/' (List.Sublist.cons '*' ih3)
          · simpa [blockGo, hcl] using
              List.Sublist.cons₂ '/' (List.Sublist.cons₂ '*' ih1)
        · simpa [blockGo, hc, hc2] using List.Sublist.cons₂ '/' (List.Sublist.cons₂ c ih1)
    · by_cases hc : c = '*'
      · subst hc; simpa [blockGo] using List.Sublist.cons '*' ih4
      · simpa [blockGo, hc] using List.Sublist.cons c ih3
    · by_cases hc : c = '/'
      · subst hc; simpa [blockGo] using List.Sublist.cons '/' ih1
      · by_cases hc2 : c = '*'
        · subst hc2; simpa [blockGo] using List.Sublist.cons '*' ih4
        · simpa [blockGo, hc, hc2] using List.Sublist.cons c ih3

theorem lineGo_sublists : ∀ l : Chars,
    List.Sublist (lineGo .out l) l ∧ List.Sublist (lineGo .dash l) ('-' :: l) ∧
      List.Sublist (lineGo .com l) l := by
  intro l
  induction l with
  | nil => exact ⟨List.nil_sublist _, List.Sublist.refl _, List.nil_sublist _⟩
  | cons c t ih =>
    obtain ⟨ih1, ih2, ih3⟩ := ih
    refine ⟨?_, ?_, ?_⟩
    · by_cases hc : c = '-'
      · subst hc; simpa [lineGo] using ih2
      · simpa [lineGo, hc] using List.Sublist.cons₂ c ih1
    · by_cases hc : c = '-'
      · subst hc; simpa [lineGo] using List.Sublist.cons '-' (List.Sublist.cons '-' ih3)
      · simpa [lineGo, hc] using List.Sublist.cons₂ '-' (List.Sublist.cons₂ c ih1)
    · by_cases hc : c = '\n'
      · subst hc; simpa [lineGo] using List.Sublist.cons₂ '\n' ih1
      · simpa [lineGo, hc] using List.Sublist.cons c ih3

theorem stripComments_sublist (l : Chars) : List.Sublist (stripComments l) l :=
  ((lineGo_sublists (blockGo .out l)).1).trans (blockGo_sublists l).1

theorem hasClose_cons_ne {c : Char} {t : Chars} (hc : c ≠ '*')
    (h : hasClose (c :: t) = true) : hasClose t = true := by
  have hsl : str "*/" = ['*', '/'] := by decide
  unfold hasClose at h ⊢
  rw [hsl] at h ⊢
  rw [containsSub] at h
  have hp : (['*', '/'] : Chars).isPrefixOf (c :: t) = false := by
    cases hbe : (('*' : Char) == c) with
    | true => exact absurd (beq_iff_eq.mp hbe).symm hc
    | false => simp [List.isPrefixOf, hbe]
  rwa [hp, Bool.false_or] at h

theorem hasClose_star_star {x : Chars} (h : hasClose ('*' :: '*' :: x) = true) :
    hasClose ('*' :: x) = true := by
  have hsl : str "*/" = ['*', '/'] := by decide
  unfold hasClose at h ⊢
  rw [hsl] at h ⊢
  rw [containsSub] at h
  have hp : (['*', '/'] : Chars).isPrefixOf ('*' :: '*' :: x) = false := by
    simp [List.isPrefixOf]
  rwa [hp, Bool.false_or] at h

theorem hasClose_star_cons {c : Char} {x : Chars} (h1 : c ≠ '/') (h2 : c ≠ '*')
    (h : hasClose ('*' :: c :: x) = true) : hasClose x = true := by
  have hsl : str "*/" = ['*', '/'] := by decide
  unfold hasClose at h ⊢
  rw [hsl] at h ⊢
  rw [containsSub, containsSub] at h
  have hp1 : (['*', '/'] : Chars).isPrefixOf ('*' :: c :: x) = false := by
    cases hbe : (('/' : Char) == c) with
    | true => exact absurd (beq_iff_eq.mp hbe).symm h1
    | false => simp [List.isPrefixOf, hbe]
  have hp2 : (['*', '/'] : Chars).isPrefixOf (c :: x) = false := by
    cases hbe : (('*' : Char) == c) with
    | true => exact absurd (beq_iff_eq.mp hbe).symm h2
    | false => simp [List.isPrefixOf, hbe]
  rwa [hp1, hp2, Bool.false_or, Bool.false_or] at h

theorem blockGo_append {b : Chars} (hb1 : '/' ∉ b) (hb2 : '*' ∉ b) :
    ∀ x : Chars,
      blockGo .out (x ++ b) = blockGo .out x ++ b ∧
      blockGo .outSlash (x ++ b) = blockGo .outSlash x ++ b ∧
      (hasClose x = true → blockGo .ins (x ++ b) = blockGo .ins x ++ b) ∧
      (hasClose ('*' :: x) = true → blockGo .insStar (x ++ b) = blockGo .insStar x ++ b) := by
  intro x
  induction x with
  | nil =>
    refine ⟨by simpa using blockGo_out_id hb1, ?_, ?_, ?_⟩
    · cases b with
      | nil => rfl
      | cons c t =>
        have hc1 : c ≠ '/' := fun he => hb1 (he ▸ List.mem_cons_self c t)
        have hc2 : c ≠ '*' := fun he => hb2 (he ▸ List.mem_cons_self c t)
        have ht : '/' ∉ t := fun hm => hb1 (List.mem_cons_of_mem _ hm)
        simp [blockGo, hc1, hc2, blockGo_out_id ht]
    · intro h; exact absurd h (by decide)
    · intro h; exact absurd h (by decide)
  | cons c x' ih =>
    obtain ⟨ih1, ih2, ih3, ih4⟩ := ih
    refine ⟨?_, ?_, ?_, ?_⟩
    · by_cases hc : c = '/'
      · subst hc; simpa [blockGo] using ih2
      · simp [blockGo, hc, ih1]
    · by_cases hc : c = '/'
      · subst hc; simpa [blockGo] using ih2
      · by_cases hc2 : c = '*'
        · subst hc2
          rw [List.cons_append,
            show blockGo .outSlash ('*' :: (x' ++ b)) =
              if hasClose (x' ++ b) then blockGo .ins (x' ++ b)
              else '/' :: '*' :: blockGo .out (x' ++ b) by simp [blockGo],
            show blockGo .outSlash ('*' :: x') =
              if hasClose x' then blockGo .ins x'
              else '/' :: '*' :: blockGo .out x' by simp [blockGo],
            hasClose_append hb1 hb2 x']
          by_cases hcl : hasClose x'
          · rw [if_pos hcl, if_pos hcl]; exact ih3 hcl
          · rw [if_neg hcl, if_neg hcl]; simp [ih1]
        · simp [blockGo, hc, hc2, ih1]
    · intro h
      by_cases hc : c = '*'
      · subst hc
        have h' : hasClose ('*' :: x') = true := h
        simpa [blockGo] using ih4 h'
      · have h' : hasClose x' = true := hasClose_cons_ne hc h
        simp [blockGo, hc, ih3 h']
    · intro h
      by_cases hc : c = '/'
      · subst hc; simpa [blockGo] using ih1
      · by_cases hc2 : c = '*'
        · subst hc2
          have h' : hasClose ('*' :: x') = true := hasClose_star_star h
          simpa [blockGo] using ih4 h'
        · have h' : hasClose x' = true := hasClose_star_cons hc hc2 h
          simp [blockGo, hc, hc2, ih3 h']

theorem lineGo_append {b : Chars} (hb1 : '-' ∉ b) (hb2 : b.head? = some '\n') :
    ∀ x : Chars,
      lineGo .out (x ++ b) = lineGo .out x ++ b ∧
      lineGo .dash (x ++ b) = lineGo .dash x ++ b ∧
      lineGo .com (x ++ b) = lineGo .com x ++ b := by
  intro x
  induction x with
  | nil =>
    obtain ⟨t, rfl⟩ : ∃ t, b = '\n' :: t := by
      cases b with
      | nil => cases hb2
      | cons c t =>
        injection hb2 with h
        exact ⟨t, by rw [h]⟩
    have ht : '-' ∉ t := fun hm => hb1 (List.mem_cons_of_mem _ hm)
    refine ⟨by simpa using lineGo_out_id hb1, ?_, ?_⟩
    · simp [lineGo, lineGo_out_id ht]
    · simp [lineGo, lineGo_out_id ht]
  | cons c x' ih =>
    obtain ⟨ih1, ih2, ih3⟩ := ih
    refine ⟨?_, ?_, ?_⟩
    · by_cases hc : c = '-'
      · subst hc; simpa [lineGo] using ih2
      · simp [lineGo, hc, ih1]
    · by_cases hc : c = '-'
      · subst hc; simpa [lineGo] using ih3
      · simp [lineGo, hc, ih1]
    · by_cases hc : c = '\n'
      · subst hc; simpa [lineGo] using ih1
      · simp [lineGo, hc, ih3]

theorem lineGo_append_ws {b : Chars} (hb : wsOnly b) :
    ∀ (x : Chars) (m : LMode), ∃ b2, wsOnly b2 ∧ lineGo m (x ++ b) = lineGo m x ++ b2 := by
  have hdash : '-' ∉ b := fun hm => absurd (hb '-' hm) (by decide)
  intro x
  induction x with
  | nil =>
    intro m
    cases m with
    | out => exact ⟨b, hb, by simpa using lineGo_out_id hdash⟩
    | dash =>
      cases b with
      | nil => exact ⟨[], fun c hc => absurd hc (List.not_mem_nil c), by simp⟩
      | cons c t =>
        have hc : c ≠ '-' := fun he => hdash (he ▸ List.mem_cons_self c t)
        have ht : '-' ∉ t := fun hm => hdash (List.mem_cons_of_mem _ hm)
        exact ⟨c :: t, hb, by simp [lineGo, hc, lineGo_out_id ht]⟩
    | com =>
      exact ⟨lineGo .com b, fun c hc => hb c ((lineGo_sublists b).2.2.subset hc),
        by simp [lineGo]⟩
  | cons c x' ih =>
    intro m
    cases m with
    | out =>
      by_cases hc : c = '-'
      · subst hc
        obtain ⟨b2, hb2, he⟩ := ih .dash
        exact ⟨b2, hb2, by simp [lineGo, he]⟩
      · obtain ⟨b2, hb2, he⟩ := ih .out
        exact ⟨b2, hb2, by simp [lineGo, hc, he]⟩
    | dash =>
      by_cases hc : c = '-'
      · subst hc
        obtain ⟨b2, hb2, he⟩ := ih .com
        exact ⟨b2, hb2, by simp [lineGo, he]⟩
      · obtain ⟨b2, hb2, he⟩ := ih .out
        exact ⟨b2, hb2, by simp [lineGo, hc, he]⟩
    | com =>
      by_cases hc : c = '\n'
      · subst hc
        obtain ⟨b2, hb2, he⟩ := ih .out
        exact ⟨b2, hb2, by simp [lineGo, he]⟩
      · obtain ⟨b2, hb2, he⟩ := ih .com
        exact ⟨b2, hb2, by simp [lineGo, hc, he]⟩

theorem blockGo_ws_front (t : Chars) :
    ∀ a : Chars, wsOnly a → blockGo .out (a ++ t) = a ++ blockGo .out t := by
  intro a
  induction a with
  | nil => intro _; rfl
  | cons c a' ih =>
    intro ha
    have hc : c ≠ '/' := fun he => absurd (ha c (List.mem_cons_self c a')) (by rw [he]; decide)
    have ha' : wsOnly a' := fun d hd => ha d (List.mem_cons_of_mem _ hd)
    simp [blockGo, hc, ih ha']

theorem lineGo_ws_front (t : Chars) :
    ∀ a : Chars, wsOnly a → lineGo .out (a ++ t) = a ++ lineGo .out t := by
  intro a
  induction a with
  | nil => intro _; rfl
  | cons c a' ih =>
    intro ha
    have hc : c ≠ '-' := fun he => absurd (ha c (List.mem_cons_self c a')) (by rw [he]; decide)
    have ha' : wsOnly a' := fun d hd => ha d (List.mem_cons_of_mem _ hd)
    simp [lineGo, hc, ih ha']

theorem stripComments_append_nl {b : Chars} (h1 : '/' ∉ b) (h2 : '*' ∉ b) (h3 : '-' ∉ b)
    (h4 : b.head? = some '\n') (x : Chars) :
    stripComments (x ++ b) = stripComments x ++ b := by
  unfold stripComments blockStrip lineStrip
  rw [(blockGo_append h1 h2 x).1, (lineGo_append h3 h4 (blockGo .out x)).1]

theorem stripComments_ws_back {b : Chars} (hb : wsOnly b) (x : Chars) :
    ∃ b2, wsOnly b2 ∧ stripComments (x ++ b) = stripComments x ++ b2 := by
  have h1 : '/' ∉ b := fun hm => absurd (hb _ hm) (by decide)
  have h2 : '*' ∉ b := fun hm => absurd (hb _ hm) (by decide)
  unfold stripComments blockStrip lineStrip
  rw [(blockGo_append h1 h2 x).1]
  exact lineGo_append_ws hb (blockGo .out x) .out

theorem stripComments_ws_front {a : Chars} (ha : wsOnly a) (t : Chars) :
    stripComments (a ++ t) = a ++ stripComments t := by
  unfold stripComments blockStrip lineStrip
  rw [blockGo_ws_front t a ha, lineGo_ws_front (blockGo .out t) a ha]
theorem ne_semi_of_ws {c : Char} (h : isWs c = true) : c ≠ ';' := by
  intro he
  rw [he] at h
  exact absurd h (by decide)

theorem isWs_false_of_lower {c : Char} (h1 : 'a' ≤ c) : isWs c = false := by
  have n1 : c ≠ ' ' := fun he => by rw [he] at h1; exact absurd h1 (by decide)
  have n2 : c ≠ '\t' := fun he => by rw [he] at h1; exact absurd h1 (by decide)
  have n3 : c ≠ '\n' := fun he => by rw [he] at h1; exact absurd h1 (by decide)
  have n4 : c ≠ '\r' := fun he => by rw [he] at h1; exact absurd h1 (by decide)
  have n5 : c ≠ Char.ofNat 12 := fun he => by rw [he] at h1; exact absurd h1 (by decide)
  have n6 : c ≠ Char.ofNat 11 := fun he => by rw [he] at h1; exact absurd h1 (by decide)
  simp [isWs, n1, n2, n3, n4, n5, n6]

theorem upC_cases (c : Char) : upC c = c ∨ ('a' ≤ c ∧ c ≤ 'z') := by
  unfold upC
  split
  · rename_i h
    right
    simpa using h
  · left; rfl

theorem not_ws_semi_of_upC_S {c : Char} (h : upC c = 'S') : isWs c = false ∧ c ≠ ';' := by
  rcases upC_cases c with he | ⟨h1, _⟩
  · rw [he] at h
    subst h
    exact ⟨by decide, by decide⟩
  · refine ⟨isWs_false_of_lower h1, fun he => ?_⟩
    rw [he] at h1
    exact absurd h1 (by decide)

theorem takeWhile_append_pos {p : Char → Bool} {w : Chars} (hw : ∀ c ∈ w, p c = true)
    (l : Chars) : List.takeWhile p (w ++ l) = w ++ List.takeWhile p l := by
  induction w with
  | nil => rfl
  | cons c t ih =>
    rw [List.cons_append, List.takeWhile_cons, if_pos (hw c (List.mem_cons_self c t)),
      ih (fun d hd => hw d (List.mem_cons_of_mem _ hd)), List.cons_append]

theorem mem_semi_stage {w : Chars} (hw : wsOnly w) {c₀ : Char} (hc : c₀ ≠ ';')
    {r s2 : Chars} (hs2 : s2 = w ++ c₀ :: r) :
    c₀ ∈ (if ';' ∈ s2 then s2.takeWhile (· ≠ ';') else s2) := by
  subst hs2
  split
  · rw [takeWhile_append_pos (fun c hcm => by simp [ne_semi_of_ws (hw c hcm)]),
      List.takeWhile_cons, if_pos (by simp [hc])]
    exact List.mem_append_right w (List.mem_cons_self _ _)
  · exact List.mem_append_right w (List.mem_cons_self _ _)

theorem semi_stage_no_semi (s2 : Chars) :
    ';' ∉ (if ';' ∈ s2 then s2.takeWhile (· ≠ ';') else s2) := by
  split
  · intro hm
    have := List.mem_takeWhile_imp hm
    simp at this
  · rename_i h
    exact h

theorem sanitize_no_semi (y : Chars) : ';' ∉ sanitizeSql y := by
  intro hmem
  simp only [sanitizeSql] at hmem
  exact semi_stage_no_semi _ ((pyStrip_sublist _).subset hmem)

theorem sanitizeSql_head_not_ws {y : Chars} {c : Char} {t : Chars}
    (h : sanitizeSql y = c :: t) : isWs c = false := by
  simp only [sanitizeSql] at h
  exact pyStrip_head_not_ws h

theorem s2_shape {y : Chars} {c₀ c₁ : Char} {d2 : Chars}
    (hd : pyStrip y = c₀ :: c₁ :: d2) :
    ∃ w r, wsOnly w ∧
      (if (pyRstrip y).getLast? = some ';' then (pyRstrip y).dropLast else pyRstrip y) =
        w ++ c₀ :: r := by
  obtain ⟨w, hw, hs1⟩ := pyLstrip_decomp (pyRstrip y)
  rw [show pyLstrip (pyRstrip y) = pyStrip y from rfl, hd] at hs1
  by_cases hcond : (pyRstrip y).getLast? = some ';'
  · refine ⟨w, (c₁ :: d2).dropLast, hw, ?_⟩
    rw [if_pos hcond, hs1, List.dropLast_append_of_ne_nil w (by simp),
      show (c₀ :: c₁ :: d2 : Chars) = [c₀] ++ (c₁ :: d2) from rfl,
      List.dropLast_append_of_ne_nil [c₀] (by simp)]
    rfl
  · exact ⟨w, c₁ :: d2, hw, by rw [if_neg hcond]; exact hs1⟩

theorem san_ne_nil {y : Chars}
    (h : (str "SELECT").isPrefixOf (pyUpper (pyStrip y)) = true) : sanitizeSql y ≠ [] := by
  rw [ List.isPrefixOf_iff_prefix] at h
  obtain ⟨l', hl⟩ := h
  rw [show str "SELECT" = ['S', 'E', 'L', 'E', 'C', 'T'] by decide] at hl
  cases hd : pyStrip y with
  | nil => rw [hd] at hl; simp [pyUpper] at hl
  | cons c₀ d1 =>
    cases d1 with
    | nil => rw [hd] at hl; simp [pyUpper] at hl
    | cons c₁ d2 =>
      rw [hd] at hl
      have hup : upC c₀ = 'S' := by
        have h2 := congrArg List.head? hl
        simp [pyUpper] at h2
        exact h2.symm
      obtain ⟨hws, hsemi⟩ := not_ws_semi_of_upC_S hup
      obtain ⟨w, r, hw, hs2⟩ := s2_shape hd
      have hc0mem := mem_semi_stage hw hsemi hs2
      exact pyStrip_ne_nil_of_mem hc0mem hws

theorem sanitizeSql_of_clean {u : Chars} (h1 : pyRstrip u = u)
    (h2 : ∀ c, u.getLast? = some c → c ≠ ';') (h3 : ';' ∉ u) :
    sanitizeSql u = pyLstrip u := by
  simp only [sanitizeSql]
  rw [h1]
  have hif1 : (if u.getLast? = some ';' then u.dropLast else u) = u :=
    if_neg (fun hcc => absurd rfl (h2 ';' hcc))
  rw [hif1, if_neg h3]
  unfold pyStrip
  rw [h1]

theorem stage3_ws_front {a : Chars} (ha : wsOnly a) (v : Chars) :
    pyStrip (if ';' ∈ a ++ v then (a ++ v).takeWhile (· ≠ ';') else a ++ v) =
      pyStrip (if ';' ∈ v then v.takeWhile (· ≠ ';') else v) := by
  have hsa : ';' ∉ a := fun hm => absurd (ha _ hm) (by decide)
  have hmem : (';' ∈ a ++ v) ↔ (';' ∈ v) := by
    rw [List.mem_append]
    constructor
    · rintro (h | h)
      · exact absurd h hsa
      · exact h
    · exact Or.inr
  by_cases hv : ';' ∈ v
  · rw [if_pos (hmem.mpr hv), if_pos hv,
      takeWhile_append_pos (fun c hc => by simp [ne_semi_of_ws (ha c hc)]),
      pyStrip_ws_front ha]
  · rw [if_neg (fun hh => hv (hmem.mp hh)), if_neg hv, pyStrip_ws_front ha]

theorem sanitizeSql_ws_wrap {a b : Chars} (ha : wsOnly a) (hb : wsOnly b) (u : Chars) :
    sanitizeSql (a ++ u ++ b) = sanitizeSql u := by
  simp only [sanitizeSql]
  rw [pyRstrip_append_ws hb]
  by_cases hru : pyRstrip u = []
  · have hwu : wsOnly u := pyRstrip_eq_nil_iff.mp hru
    have hnil : pyRstrip (a ++ u) = [] := pyRstrip_eq_nil_iff.mpr (wsOnly_append ha hwu)
    rw [hnil, hru]
  · rw [pyRstrip_append_of_ne_nil hru a]
    obtain ⟨c, hc⟩ : ∃ c, (pyRstrip u).getLast? = some c := by
      cases hq : (pyRstrip u).getLast? with
      | some c => exact ⟨c, rfl⟩
      | none => exact absurd (List.getLast?_eq_none_iff.mp hq) hru
    have hlast : (a ++ pyRstrip u).getLast? = (pyRstrip u).getLast? := by
      rw [List.getLast?_append, hc]
      rfl
    rw [hlast]
    by_cases hcond : (pyRstrip u).getLast? = some ';'
    · rw [if_pos hcond, if_pos hcond, List.dropLast_append_of_ne_nil a hru]
      exact stage3_ws_front ha _
    · rw [if_neg hcond, if_neg hcond]
      exact stage3_ws_front ha _

theorem lstrip_append_keeps (x b : Chars) :
    pyLstrip (x ++ b) = pyLstrip b ∨ pyLstrip (x ++ b) = pyLstrip x ++ b := by
  unfold pyLstrip
  rw [List.dropWhile_append]
  split
  · exact Or.inl rfl
  · exact Or.inr rfl
theorem getLast_plus_limit {x : Chars} {c : Char}
    (h : (x ++ str "\nLIMIT 500").getLast? = some c) : c = '0' := by
  rw [List.getLast?_append, show (str "\nLIMIT 500").getLast? = some '0' by decide] at h
  have h' : (some '0' : Option Char) = some c := h
  injection h' with h'
  exact h'.symm

theorem sanStripped_plus_contains {p : Chars} (hp : ';' ∉ p) :
    containsSub (str "LIMIT") (pyUpper (sanStripped (p ++ str "\nLIMIT 500"))) = true := by
  have hstrip : stripComments (p ++ str "\nLIMIT 500") =
      stripComments p ++ str "\nLIMIT 500" :=
    stripComments_append_nl (by decide) (by decide) (by decide) (by decide) p
  have hq : ';' ∉ stripComments p := fun hm => hp ((stripComments_sublist p).subset hm)
  have hsan : sanStripped (p ++ str "\nLIMIT 500") =
      pyLstrip (stripComments p ++ str "\nLIMIT 500") := by
    unfold sanStripped
    rw [hstrip]
    apply sanitizeSql_of_clean
    · apply pyRstrip_eq_self
      intro c hcl
      rw [getLast_plus_limit hcl]
      decide
    · intro c hcl
      rw [getLast_plus_limit hcl]
      decide
    · intro hm
      rcases List.mem_append.mp hm with h | h
      · exact hq h
      · exact absurd h (by decide)
  rw [hsan]
  rcases lstrip_append_keeps (stripComments p) (str "\nLIMIT 500") with h | h
  · rw [h]; decide
  · rw [h, pyUpper_append]
    exact containsSub_of_suffix (by decide) _

theorem noLimitFlag_plus_false {p : Chars} (hp : ';' ∉ p) :
    noLimitFlag (p ++ str "\nLIMIT 500") = false := by
  unfold noLimitFlag
  rw [sanStripped_plus_contains hp]
  rfl

theorem correctedVar_eq_plus {s : Chars} (h2 : noLimitFlag s = true) :
    correctedVar s = sanStripped s ++ str "\nLIMIT 500" := by
  unfold correctedVar
  rw [if_pos h2, List.append_assoc,
    show str "\nLIMIT " ++ natChars config.default_limit = str "\nLIMIT 500" by decide]

/-- C6 (amended): for every SQL text accepted by the validator whose sanitized
comment-stripped form does not even contain the substring `LIMIT` (the code's
actual test, rather than "lacks a LIMIT clause"), the corrected SQL is reported
and is exactly the sanitized text with `LIMIT 500` appended; that text contains
exactly one `LIMIT` occurrence, its first `LIMIT \s+(\d+)` match captures the
default 500, the omission is reported as the dedicated warning, and the error
list is empty. -/
theorem c6_default_limit_amended (s : Chars)
    (h1 : (validateSql s).is_valid = true) (h2 : noLimitFlag s = true) :
    (validateSql s).corrected_sql =
        some (sanStripped s ++ str "\nLIMIT " ++ natChars config.default_limit) ∧
      occCount (str "LIMIT")
        (pyUpper (sanStripped s ++ str "\nLIMIT " ++ natChars config.default_limit)) = 1 ∧
      limitSearch
        (pyUpper (sanStripped s ++ str "\nLIMIT " ++ natChars config.default_limit)) =
          some config.default_limit ∧
      str "No LIMIT clause found, adding default" ∈ (validateSql s).warnings ∧
      (validateSql s).errors = [] := by
  have hshape : sanStripped s ++ str "\nLIMIT " ++ natChars config.default_limit =
      sanStripped s ++ str "\nLIMIT 500" := by
    rw [List.append_assoc,
      show str "\nLIMIT " ++ natChars config.default_limit = str "\nLIMIT 500" by decide]
  have hcf : containsSub (str "LIMIT") (pyUpper (sanStripped s)) = false := by
    simpa [noLimitFlag] using h2
  have hbpat : ∀ c, (str "\nLIMIT 500").head? = some c → c ∉ str "LIMIT" := by
    intro c hc
    rw [show (str "\nLIMIT 500").head? = some '\n' by decide] at hc
    injection hc with hc
    subst hc
    decide
  refine ⟨?_, ?_, ?_, ?_, ?_⟩
  · have hne : correctedVar s ≠ s := by
      rw [correctedVar_eq_plus h2]
      intro hEq
      have hflag : noLimitFlag (sanStripped s ++ str "\nLIMIT 500") = false :=
        noLimitFlag_plus_false (sanitize_no_semi (stripComments s))
      rw [hEq] at hflag
      exact Bool.noConfusion (h2.symm.trans hflag)
    simp only [validateSql]
    rw [if_pos hne]
    unfold correctedVar
    rw [if_pos h2]
  · rw [hshape, pyUpper_append, show pyUpper (str "\nLIMIT 500") = str "\nLIMIT 500" by decide,
      occCount_append_split (by decide) hbpat, occCount_eq_zero hcf,
      show occCount (str "LIMIT") (str "\nLIMIT 500") = 1 by decide]
  · rw [hshape, pyUpper_append, show pyUpper (str "\nLIMIT 500") = str "\nLIMIT 500" by decide,
      limitSearch_append hcf (by decide)]
    decide
  · simp [validateSql, validateWarnings, h2]
  · simp only [validateSql] at h1 ⊢
    exact List.isEmpty_iff.mp h1

/-- Witness for `c6_default_limit_amended`: the concrete valid query
`SELECT a FROM t` satisfies both hypotheses and the five conclusions. -/
theorem c6_default_limit_amended_witness :
    (validateSql (str "SELECT a FROM t")).is_valid = true ∧
      noLimitFlag (str "SELECT a FROM t") = true ∧
      ((validateSql (str "SELECT a FROM t")).corrected_sql =
          some (sanStripped (str "SELECT a FROM t") ++ str "\nLIMIT " ++
            natChars config.default_limit) ∧
        occCount (str "LIMIT")
          (pyUpper (sanStripped (str "SELECT a FROM t") ++ str "\nLIMIT " ++
            natChars config.default_limit)) = 1 ∧
        limitSearch
          (pyUpper (sanStripped (str "SELECT a FROM t") ++ str "\nLIMIT " ++
            natChars config.default_limit)) = some config.default_limit ∧
        str "No LIMIT clause found, adding default" ∈
          (validateSql (str "SELECT a FROM t")).warnings ∧
        (validateSql (str "SELECT a FROM t")).errors = []) :=
  ⟨by decide, by decide,
    c6_default_limit_amended (str "SELECT a FROM t") (by decide) (by decide)⟩

set_option maxHeartbeats 1600000 in
/-- C8 (amended, positive half): re-validating a corrected statement yields no
further correction.  For every input accepted by the validator that received a
corrected SQL, validating that corrected text reports `corrected_sql = none`
(the corrected variable equals the input, so the code's `!=` guard suppresses
it).  The `is_valid` half of the original claim is refuted separately. -/
theorem c8_revalidation_no_further_correction (s s' : Chars)
    (h1 : (validateSql s).is_valid = true)
    (h2 : (validateSql s).corrected_sql = some s') :
    (validateSql s').corrected_sql = none := by
  have hcs : correctedVar s = s' ∧ correctedVar s ≠ s := by
    simp only [validateSql] at h2
    split at h2
    · rename_i hne
      injection h2 with h2
      exact ⟨h2, hne⟩
    · cases h2
  obtain ⟨hs', hne⟩ := hcs
  suffices hfix : correctedVar s' = s' by
    simp only [validateSql]
    rw [if_neg (fun hq => hq hfix)]
  by_cases hA : noLimitFlag s = true
  · have hs'eq : s' = sanStripped s ++ str "\nLIMIT 500" := by
      rw [← hs', correctedVar_eq_plus hA]
    have hsel : (str "SELECT").isPrefixOf (pyUpper (pyStrip (stripComments s))) = true := by
      simp only [validateSql] at h1
      have hErr : validateErrors s = [] := List.isEmpty_iff.mp h1
      unfold validateErrors at hErr
      have hv4 := (List.append_eq_nil.mp hErr).1
      have hv3 := (List.append_eq_nil.mp hv4).1
      have hv2 := (List.append_eq_nil.mp hv3).1
      have hse : selectStartErrors (pyUpper (pyStrip (stripComments s))) = [] :=
        (List.append_eq_nil.mp hv2).1
      unfold selectStartErrors at hse
      by_cases hp : (str "SELECT").isPrefixOf (pyUpper (pyStrip (stripComments s))) = true
      · exact hp
      · rw [if_neg hp] at hse
        cases hse
    have hnn : sanStripped s ≠ [] := san_ne_nil hsel
    obtain ⟨c₀, t₀, hp0⟩ : ∃ c₀ t₀, sanStripped s = c₀ :: t₀ := by
      cases hq : sanStripped s with
      | nil => exact absurd hq hnn
      | cons a b => exact ⟨a, b, rfl⟩
    have hws0 : isWs c₀ = false := sanitizeSql_head_not_ws hp0
    have hflagf : noLimitFlag s' = false := by
      rw [hs'eq]
      exact noLimitFlag_plus_false (sanitize_no_semi (stripComments s))
    unfold correctedVar
    rw [hflagf, if_neg Bool.false_ne_true, hs'eq]
    apply pyStrip_eq_self
    · intro c hc
      rw [hp0, List.cons_append] at hc
      injection hc with hc
      subst hc
      exact hws0
    · intro c hc
      rw [getLast_plus_limit hc]
      decide
  · have hA' : noLimitFlag s = false := by
      cases hq : noLimitFlag s with
      | true => exact absurd hq hA
      | false => rfl
    have hs'eq : s' = pyStrip s := by
      rw [← hs']
      unfold correctedVar
      rw [hA', if_neg Bool.false_ne_true]
    have hsan : sanStripped s' = sanStripped s := by
      obtain ⟨a, b, ha, hb, hdec⟩ := pyStrip_decomp s
      obtain ⟨b2, hb2, hsc⟩ := stripComments_ws_back hb (pyStrip s)
      have hsc2 : stripComments s = a ++ (stripComments (pyStrip s) ++ b2) := by
        conv_lhs => rw [hdec]
        calc stripComments (a ++ pyStrip s ++ b)
            = stripComments (a ++ (pyStrip s ++ b)) := by rw [List.append_assoc]
          _ = a ++ stripComments (pyStrip s ++ b) := stripComments_ws_front ha _
          _ = a ++ (stripComments (pyStrip s) ++ b2) := by rw [hsc]
      unfold sanStripped
      rw [hs'eq, hsc2, ← List.append_assoc]
      exact (sanitizeSql_ws_wrap ha hb2 _).symm
    have hflagf : noLimitFlag s' = false := by
      unfold noLimitFlag at hA' ⊢
      rw [hsan]
      exact hA'
    unfold correctedVar
    rw [hflagf, if_neg Bool.false_ne_true, hs'eq]
    exact pyStrip_idem s

/-- Witness for `c8_revalidation_no_further_correction`: `SELECT a FROM t` is
accepted, corrected to `SELECT a FROM t\nLIMIT 500`, and re-validating the
corrected text reports no further correction. -/
theorem c8_revalidation_no_further_correction_witness :
    (validateSql (str "SELECT a FROM t")).is_valid = true ∧
      (validateSql (str "SELECT a FROM t")).corrected_sql =
        some (str "SELECT a FROM t\nLIMIT 500") ∧
      (validateSql (str "SELECT a FROM t\nLIMIT 500")).corrected_sql = none :=
  ⟨by decide, by decide,
    c8_revalidation_no_further_correction (str "SELECT a FROM t")
      (str "SELECT a FROM t\nLIMIT 500") (by decide) (by decide)⟩

end Dalgo
